import Mathlib

/-!
Verification development for the `uat_editor` repository.

Strings are modelled as lists of characters (`Str`); Rust byte indices
coincide with character indices for the ASCII anchors involved, and
`str::to_lowercase` is modelled as the character-wise `Char.toLower`
(length-preserving, which holds for all ASCII text the grammar anchors use).
Rust panics (slice out of bounds, `Vec::remove`/`Vec::insert` out of range,
remainder by zero) are modelled explicitly by the `PResult.panic`
constructor, and fallible operations return `PResult`/`Except`.
-/

abbrev Str := List Char

/-- Character-wise lowercasing, modelling `str::to_lowercase` from
`TestStep::parse_markdown` (src/test_step.rs line 47). -/
def lowerStr (s : Str) : Str := s.map Char.toLower

/-- Leading-whitespace trim, first half of Rust `str::trim`. -/
def trimL (s : Str) : Str := s.dropWhile Char.isWhitespace

/-- Trailing-whitespace trim, second half of Rust `str::trim`. -/
def trimR (s : Str) : Str := (s.reverse.dropWhile Char.isWhitespace).reverse

/-- Rust `str::trim`, used by the `TestStep` accessors (src/test_step.rs 34-44). -/
def trimStr (s : Str) : Str := trimR (trimL s)

/-- Rust `str::find`: index of the first occurrence of `pat` in `s`. -/
def strFind (pat s : Str) : Option Nat :=
  if pat.isPrefixOf s then some 0
  else
    match s with
    | [] => none
    | _ :: t => (strFind pat t).map (· + 1)

/-- `pat` occurs in `s` starting at index `i`. -/
def occursAt (pat s : Str) (i : Nat) : Prop :=
  ∃ a b, s = a ++ pat ++ b ∧ a.length = i

/-- `pat` occurs somewhere in `s` (Rust `str::contains`). -/
def occursIn (pat s : Str) : Prop := ∃ i, occursAt pat s i

theorem occursAt_zero (pat s : Str) : occursAt pat s 0 ↔ pat <+: s := by
  constructor
  · rintro ⟨a, b, rfl, hl⟩
    rw [List.length_eq_zero] at hl
    subst hl
    exact ⟨b, rfl⟩
  · rintro ⟨t, rfl⟩
    exact ⟨[], t, rfl, rfl⟩

theorem occursAt_cons (pat : Str) (c : Char) (s : Str) (i : Nat) :
    occursAt pat (c :: s) (i + 1) ↔ occursAt pat s i := by
  constructor
  · rintro ⟨a, b, heq, hl⟩
    rcases a with _ | ⟨a0, a'⟩
    · simp only [List.length_nil] at hl; omega
    · injection heq with h1 h2
      refine ⟨a', b, h2, ?_⟩
      simp only [List.length_cons] at hl
      omega
  · rintro ⟨a, b, rfl, hl⟩
    exact ⟨c :: a, b, rfl, by simp [hl]⟩

theorem occursAt_nil (pat : Str) (i : Nat) :
    occursAt pat [] i ↔ pat = [] ∧ i = 0 := by
  constructor
  · rintro ⟨a, b, heq, hl⟩
    have ha : a = [] := by
      cases a with
      | nil => rfl
      | cons x xs => exact absurd heq (by simp)
    subst ha
    have hp : pat = [] := by
      cases pat with
      | nil => rfl
      | cons x xs => exact absurd heq (by simp)
    exact ⟨hp, hl.symm⟩
  · rintro ⟨rfl, rfl⟩
    exact ⟨[], [], rfl, rfl⟩

theorem strFind_nil (pat : Str) : strFind pat [] = if pat = [] then some 0 else none := by
  cases pat <;> rw [strFind] <;> simp [List.isPrefixOf]

theorem strFind_cons (pat : Str) (c : Char) (s : Str) :
    strFind pat (c :: s) =
      if pat.isPrefixOf (c :: s) then some 0 else (strFind pat s).map (· + 1) := by
  rw [strFind]

theorem strFind_some_iff (pat : Str) : ∀ (s : Str) (i : Nat),
    strFind pat s = some i ↔ occursAt pat s i ∧ ∀ j, j < i → ¬ occursAt pat s j := by
  intro s
  induction s with
  | nil =>
    intro i
    rw [strFind_nil]
    by_cases hp : pat = []
    · subst hp
      constructor
      · intro h
        simp only [if_pos rfl, if_true, Option.some.injEq] at h
        subst h
        exact ⟨(occursAt_nil [] 0).mpr ⟨rfl, rfl⟩, by omega⟩
      · rintro ⟨hocc, -⟩
        rcases (occursAt_nil [] i).mp hocc with ⟨-, rfl⟩
        simp only [if_pos rfl, if_true]
    · simp only [if_neg hp]
      constructor
      · intro h; cases h
      · rintro ⟨hocc, -⟩
        rcases (occursAt_nil pat i).mp hocc with ⟨h, -⟩
        exact absurd h hp
  | cons c t ih =>
    intro i
    rw [strFind_cons]
    by_cases hp : pat.isPrefixOf (c :: t)
    · rw [if_pos hp]
      rw [ List.isPrefixOf_iff_prefix] at hp
      constructor
      · intro h
        simp only [Option.some.injEq] at h
        subst h
        exact ⟨(occursAt_zero pat (c :: t)).mpr hp, by omega⟩
      · rintro ⟨hocc, hmin⟩
        rcases i with _ | i'
        · rfl
        · exact absurd ((occursAt_zero pat (c :: t)).mpr hp) (hmin 0 (by omega))
    · rw [if_neg hp]
      have h0 : ¬ occursAt pat (c :: t) 0 := by
        rw [occursAt_zero, ← List.isPrefixOf_iff_prefix]
        exact hp
      constructor
      · intro h
        rcases Option.map_eq_some'.mp h with ⟨i', hfind, rfl⟩
        rcases (ih i').mp hfind with ⟨hocc, hmin⟩
        refine ⟨(occursAt_cons pat c t i').mpr hocc, ?_⟩
        intro j hj
        rcases j with _ | j'
        · exact h0
        · exact fun hc => hmin j' (by omega) ((occursAt_cons pat c t j').mp hc)
      · rintro ⟨hocc, hmin⟩
        rcases i with _ | i'
        · exact absurd hocc h0
        · have : strFind pat t = some i' := by
            refine (ih i').mpr ⟨(occursAt_cons pat c t i').mp hocc, ?_⟩
            intro j hj hc
            exact hmin (j + 1) (by omega) ((occursAt_cons pat c t j).mpr hc)
          rw [this, Option.map_some']

theorem strFind_none_iff (pat s : Str) :
    strFind pat s = none ↔ ¬ occursIn pat s := by
  constructor
  · intro h ⟨i, hocc⟩
    induction s generalizing i with
    | nil =>
      rcases (occursAt_nil pat i).mp hocc with ⟨rfl, rfl⟩
      rw [strFind_nil] at h
      simp at h
    | cons c t ih =>
      rw [strFind_cons] at h
      by_cases hp : pat.isPrefixOf (c :: t)
      · rw [if_pos hp] at h; cases h
      · rw [if_neg hp] at h
        rcases i with _ | i'
        · rw [occursAt_zero, ← List.isPrefixOf_iff_prefix] at hocc
          exact hp hocc
        · exact ih (Option.map_eq_none'.mp h) i' ((occursAt_cons pat c t i').mp hocc)
  · intro h
    rcases hf : strFind pat s with - | i
    · rfl
    · exact absurd ⟨i, ((strFind_some_iff pat s i).mp hf).1⟩ h

theorem occursIn_iff_strFind (pat s : Str) :
    occursIn pat s ↔ strFind pat s ≠ none := by
  rw [Ne, strFind_none_iff, not_not]

instance (pat s : Str) : Decidable (occursIn pat s) :=
  decidable_of_iff (strFind pat s ≠ none) (occursIn_iff_strFind pat s).symm

theorem occursAt_length (pat s : Str) (i : Nat) (h : occursAt pat s i) :
    i + pat.length ≤ s.length := by
  obtain ⟨a, b, rfl, rfl⟩ := h
  simp [List.length_append]

theorem occursAt_getElem? (pat s : Str) (i m : Nat) (h : occursAt pat s i)
    (hm : m < pat.length) : s[i + m]? = pat[m]? := by
  obtain ⟨a, b, rfl, rfl⟩ := h
  rw [List.getElem?_append, if_pos (by simp [List.length_append]; omega),
    List.getElem?_append, if_neg (by omega)]
  congr 1
  omega

theorem occursAt_append_left (pat x y : Str) (i : Nat)
    (h : occursAt pat (x ++ y) i) (hle : i + pat.length ≤ x.length) :
    occursAt pat x i := by
  obtain ⟨a, b, heq, rfl⟩ := h
  have hx : x = (x ++ y).take x.length := by simp
  have key : x = a ++ pat ++ b.take (x.length - a.length - pat.length) := by
    conv_lhs => rw [hx, heq]
    rw [List.take_append_eq_append_take, List.take_append_eq_append_take,
      List.take_of_length_le (by omega), List.take_of_length_le (by omega),
      List.length_append, ← Nat.sub_sub]
  exact ⟨a, b.take (x.length - a.length - pat.length), key, rfl⟩

theorem occursAt_append_right (pat x y : Str) (i : Nat)
    (h : occursAt pat (x ++ y) i) (hge : x.length ≤ i) :
    occursAt pat y (i - x.length) := by
  obtain ⟨a, b, heq, rfl⟩ := h
  refine ⟨a.drop x.length, b, ?_, by simp⟩
  have hy : y = (x ++ y).drop x.length := by simp
  rw [hy, heq, List.drop_append_eq_append_drop, List.drop_append_eq_append_drop]
  have h1 : x.length - a.length = 0 := by omega
  have h2 : x.length - (a ++ pat).length = 0 := by simp [List.length_append]; omega
  rw [h1, h2, List.drop_zero, List.drop_zero]

theorem not_occursIn_cons (pat : Str) (c : Char) (y : Str)
    (hne : pat ≠ []) (hc : c ∉ pat) (hy : ¬ occursIn pat y) :
    ¬ occursIn pat (c :: y) := by
  rintro ⟨i, hocc⟩
  rcases i with _ | i'
  · rw [occursAt_zero] at hocc
    obtain ⟨t, ht⟩ := hocc
    cases pat with
    | nil => exact hne rfl
    | cons p ps =>
      injection ht with h1 h2
      exact hc (h1 ▸ List.mem_cons_self p ps)
  · exact hy ⟨i', (occursAt_cons pat c y i').mp hocc⟩

theorem not_occursIn_append_cons (pat x y : Str) (c : Char)
    (hx : ¬ occursIn pat x) (hy : ¬ occursIn pat y) (hc : c ∉ pat) :
    ¬ occursIn pat (x ++ c :: y) := by
  rintro ⟨i, hocc⟩
  by_cases h1 : i + pat.length ≤ x.length
  · exact hx ⟨i, occursAt_append_left pat x (c :: y) i hocc h1⟩
  · by_cases h2 : x.length + 1 ≤ i
    · have hr := occursAt_append_right pat x (c :: y) i hocc (by omega)
      have h3 : i - x.length = (i - x.length - 1) + 1 := by omega
      rw [h3] at hr
      exact hy ⟨_, (occursAt_cons pat c y _).mp hr⟩
    · have hm : x.length - i < pat.length := by omega
      have hg := occursAt_getElem? pat (x ++ c :: y) i (x.length - i) hocc hm
      rw [show i + (x.length - i) = x.length from by omega] at hg
      rw [List.getElem?_append, if_neg (by omega), Nat.sub_self] at hg
      simp only [List.getElem?_cons_zero] at hg
      exact hc (List.getElem?_mem hg.symm)

/-- `pat` has no nontrivial border (no proper prefix equal to a proper suffix).
All anchor patterns of the grammar and the clipboard marker satisfy this. -/
def borderFree (pat : Str) : Prop :=
  ∀ k < pat.length, 0 < k → pat.take k ≠ pat.drop (pat.length - k)

instance (pat : Str) : Decidable (borderFree pat) := by
  unfold borderFree; infer_instance

theorem strFind_planted (pat P S : Str)
    (hP : ¬ occursIn pat P) (hb : borderFree pat) :
    strFind pat (P ++ pat ++ S) = some P.length := by
  rw [strFind_some_iff]
  refine ⟨⟨P, S, rfl, rfl⟩, ?_⟩
  intro j hj hocc
  by_cases h1 : j + pat.length ≤ P.length
  · refine hP ⟨j, ?_⟩
    rw [List.append_assoc] at hocc
    exact occursAt_append_left pat P (pat ++ S) j hocc h1
  · set k := j + pat.length - P.length with hk
    refine hb k (by omega) (by omega) ?_
    have hocc0 : occursAt pat (P ++ pat ++ S) P.length := ⟨P, S, rfl, rfl⟩
    apply List.ext_getElem?
    intro m
    by_cases hmk : m < k
    · have hmp : m < pat.length := by omega
      rw [List.getElem?_take_of_lt hmk, List.getElem?_drop]
      have e1 := occursAt_getElem? pat (P ++ pat ++ S) P.length m hocc0 hmp
      have e2 := occursAt_getElem? pat (P ++ pat ++ S) j (pat.length - k + m) hocc
        (by omega)
      rw [show j + (pat.length - k + m) = P.length + m from by omega] at e2
      rw [← e1, ← e2]
    · have hk2 : k ≤ pat.length := by omega
      rw [List.getElem?_eq_none (by simp [List.length_take]; omega),
        List.getElem?_eq_none (by simp [List.length_drop]; omega)]

theorem strFind_of_prefix (pat s : Str) (h : pat <+: s) :
    strFind pat s = some 0 := by
  rw [strFind_some_iff]
  exact ⟨(occursAt_zero pat s).mpr h, by omega⟩

theorem occursIn_of_infix (pat t s : Str) (h : occursIn pat t) (hts : t <:+: s) :
    occursIn pat s := by
  obtain ⟨i, a, b, rfl, rfl⟩ := h
  obtain ⟨l, r, rfl⟩ := hts
  exact ⟨l.length + a.length, l ++ a, b ++ r, by simp [List.append_assoc], by simp⟩

theorem dropWhile_head_false (p : Char → Bool) : ∀ (l : List Char) (c : Char) (t : List Char),
    l.dropWhile p = c :: t → p c = false := by
  intro l
  induction l with
  | nil => intro c t h; cases h
  | cons a l ih =>
    intro c t h
    rw [List.dropWhile_cons] at h
    by_cases hp : p a
    · rw [if_pos hp] at h
      exact ih c t h
    · rw [if_neg hp] at h
      injection h with h1 h2
      subst h1
      exact Bool.eq_false_iff.mpr hp

theorem dropWhile_idem (p : Char → Bool) (l : List Char) :
    (l.dropWhile p).dropWhile p = l.dropWhile p := by
  rcases hd : l.dropWhile p with - | ⟨c, t⟩
  · rfl
  · rw [List.dropWhile_cons, dropWhile_head_false p l c t hd]
    simp

theorem trimL_cons_ws (c : Char) (s : Str) (hc : c.isWhitespace) :
    trimL (c :: s) = trimL s := by
  simp [trimL, List.dropWhile_cons, hc]

theorem trimL_cons_not_ws (c : Char) (s : Str) (hc : ¬ c.isWhitespace) :
    trimL (c :: s) = c :: s := by
  simp [trimL, List.dropWhile_cons, hc]

theorem trimL_append_ws (pre s : Str) (hpre : ∀ c ∈ pre, c.isWhitespace) :
    trimL (pre ++ s) = trimL s := by
  induction pre with
  | nil => rfl
  | cons c t ih =>
    rw [List.cons_append, trimL_cons_ws c (t ++ s) (hpre c (List.mem_cons_self c t))]
    exact ih fun x hx => hpre x (List.mem_cons_of_mem c hx)

theorem trimL_eq_nil (s : Str) (h : ∀ c ∈ s, c.isWhitespace) : trimL s = [] := by
  rw [trimL, List.dropWhile_eq_nil_iff]
  exact fun c hc => h c hc

theorem trimR_append_ws (s post : Str) (hpost : ∀ c ∈ post, c.isWhitespace) :
    trimR (s ++ post) = trimR s := by
  have h : trimL (post.reverse ++ s.reverse) = trimL s.reverse :=
    trimL_append_ws post.reverse s.reverse fun c hc => hpost c (List.mem_reverse.mp hc)
  rw [trimR, trimR, List.reverse_append]
  exact congrArg List.reverse h

theorem trimR_idem (s : Str) : trimR (trimR s) = trimR s := by
  rw [trimR, trimR, List.reverse_reverse]
  exact congrArg List.reverse (dropWhile_idem Char.isWhitespace s.reverse)

theorem trimR_prefix (s : Str) : trimR s <+: s := by
  have h : s.reverse.dropWhile Char.isWhitespace <:+ s.reverse :=
    List.dropWhile_suffix Char.isWhitespace
  have h2 := List.reverse_prefix.mpr h
  rwa [List.reverse_reverse] at h2

theorem trimStr_head_not_ws (s : Str) (c : Char) (t : Str) (h : trimStr s = c :: t) :
    ¬ c.isWhitespace := by
  rw [trimStr] at h
  obtain ⟨r, hr⟩ := trimR_prefix (trimL s)
  rw [h] at hr
  intro hc
  have := dropWhile_head_false Char.isWhitespace s c (t ++ r)
    (by rw [← trimL, ← hr]; simp)
  rw [hc] at this
  cases this

theorem trimStr_sandwich (pre post s : Str)
    (hpre : ∀ c ∈ pre, c.isWhitespace) (hpost : ∀ c ∈ post, c.isWhitespace) :
    trimStr (pre ++ trimStr s ++ post) = trimStr s := by
  rcases hM : trimStr s with - | ⟨c, t⟩
  · rw [trimStr, List.append_assoc, trimL_append_ws pre ([] ++ post) hpre,
      List.nil_append, trimL_eq_nil post hpost]
    rfl
  · have hc : ¬ c.isWhitespace := trimStr_head_not_ws s c t hM
    rw [trimStr, List.append_assoc, trimL_append_ws pre ((c :: t) ++ post) hpre,
      List.cons_append, trimL_cons_not_ws c (t ++ post) hc, ← List.cons_append,
      trimR_append_ws (c :: t) post hpost, ← hM, trimStr, trimR_idem]

theorem trimStr_idem (s : Str) : trimStr (trimStr s) = trimStr s := by
  have := trimStr_sandwich [] [] s (by simp) (by simp)
  simpa using this

theorem trimL_suffix (s : Str) : trimL s <:+ s := List.dropWhile_suffix Char.isWhitespace

theorem trimStr_infix (s : Str) : trimStr s <:+: s := by
  have h1 : trimStr s <+: trimL s := trimR_prefix (trimL s)
  have h2 : trimL s <:+ s := trimL_suffix s
  exact h1.isInfix.trans h2.isInfix

/-- `TestStep` (src/test_step.rs 8-17). The two flags default to `false` in
the serde model for backwards compatibility; text fields are `Str`. -/
structure TestStep where
  is_stepless_comment : Bool
  is_new_section : Bool
  instructions : Str
  expected_results : Str
  ac : Str
deriving DecidableEq, Repr

/-- `TestStep::new` (src/test_step.rs 20-28). -/
def TestStep.new (is_stepless_comment is_new_section : Bool) : TestStep :=
  ⟨is_stepless_comment, is_new_section, [], [], []⟩

/-- Result of a fallible Rust operation: `Ok`, `Err(msg)`, or a panic. -/
inductive PResult (α : Type) where
  | ok (val : α)
  | err (msg : String)
  | panic
deriving DecidableEq

/-- `comment_section_str` (src/test_step.rs 53). -/
def commentSectionStr : Str := "# comment section".data

/-- `new_section_str` (src/test_step.rs 54). -/
def newSectionStr : Str := "# new section".data

/-- `instructions_str` (src/test_step.rs 55). -/
def instructionsStr : Str := "# instructions".data

/-- The `"# expected results"` anchor (src/test_step.rs 89). -/
def expectedResultsStr : Str := "# expected results".data

/-- The `"# ac"` anchor (src/test_step.rs 99). -/
def acStr : Str := "# ac".data

/-- `TestStep::gen_markdown` (src/test_step.rs 118-133):
`format!("{}\n{}\n\n# Expected Results\n{}\n\n# AC\n{}", pre_str,
self.instructions(), self.expected_results(), self.ac())`, where the
accessors trim their fields. -/
def TestStep.gen_markdown (s : TestStep) : Str :=
  (if s.is_new_section then "# New Section".data
   else if s.is_stepless_comment then "# Comment Section".data
   else "# Instructions".data)
  ++ '\n' :: trimStr s.instructions
  ++ '\n' :: '\n' :: "# Expected Results".data
  ++ '\n' :: trimStr s.expected_results
  ++ '\n' :: '\n' :: "# AC".data
  ++ '\n' :: trimStr s.ac

/-- The opening-header search of `TestStep::parse_markdown`
(src/test_step.rs 57-74): `maybe_new_section` takes priority, then
`maybe_comment_section`, then the `# instructions` fallback. Returns
`(index, is_new_section, is_stepless_comment)`. -/
def findOpening (lower : Str) : Option (Nat × Bool × Bool) :=
  let maybeNewSection := (strFind newSectionStr lower).map fun idx => (idx, true, false)
  let maybeCommentSection := (strFind commentSectionStr lower).map fun idx => (idx, false, true)
  match maybeNewSection with
  | some t => some t
  | none =>
    match maybeCommentSection with
    | some t => some t
    | none => (strFind instructionsStr lower).map fun idx => (idx, false, false)

/-- The anchor-slicing part of `TestStep::parse_markdown`
(src/test_step.rs 84-105), operating on the text that follows the opening
header. The source's `input.split_at(idx + 19)` and `input.split_at(idx + 5)`
panic when the index is past the end of the string; `PResult.panic` models
that. -/
def parseFields (input : Str) : PResult (Str × Str × Str) :=
  let lower := lowerStr input
  match strFind expectedResultsStr lower with
  | none => .err "Could not find expected results section"
  | some idx =>
    if idx + 19 ≤ input.length then
      let instructions := input.take idx
      let input2 := input.drop (idx + 19)
      let lower2 := lowerStr input2
      match strFind acStr lower2 with
      | none => .err "Could not find ac section"
      | some idx2 =>
        if idx2 + 5 ≤ input2.length then
          .ok (instructions, input2.take idx2, input2.drop (idx2 + 5))
        else .panic
    else .panic

/-- `TestStep::parse_markdown` (src/test_step.rs 46-116). Indices found in
`lower` are used to slice `input`; in the character model the two have equal
length (as they do in Rust for text whose lowercasing is length-preserving). -/
def parseMarkdown (input : Str) : PResult TestStep :=
  let lower := lowerStr input
  match findOpening lower with
  | none => .err "Failed to find instructions"
  | some (idx, is_new_section, is_stepless_comment) =>
    let offset := if is_new_section then newSectionStr.length
      else if is_stepless_comment then commentSectionStr.length
      else instructionsStr.length
    match parseFields (input.drop (idx + offset)) with
    | .ok (instructions, expected_results, ac) =>
      .ok ⟨is_stepless_comment, is_new_section, instructions, expected_results, ac⟩
    | .err msg => .err msg
    | .panic => .panic

theorem lowerStr_append (x y : Str) : lowerStr (x ++ y) = lowerStr x ++ lowerStr y :=
  List.map_append Char.toLower x y

theorem lowerStr_cons (c : Char) (x : Str) : lowerStr (c :: x) = c.toLower :: lowerStr x :=
  rfl

theorem lowerStr_length (s : Str) : (lowerStr s).length = s.length :=
  List.length_map s Char.toLower

/-- The anchor headers rendered by `gen_markdown` lowercase to the anchor
patterns searched by `parse_markdown`. -/
theorem lower_hdrE : lowerStr "# Expected Results".data = expectedResultsStr := by decide

theorem lower_hdrA : lowerStr "# AC".data = acStr := by decide

theorem parseFields_render (I E A : Str)
    (hI : ¬ occursIn expectedResultsStr (lowerStr I))
    (hE : ¬ occursIn acStr (lowerStr E)) :
    parseFields ('\n' :: I ++ '\n' :: '\n' :: "# Expected Results".data
        ++ '\n' :: E ++ '\n' :: '\n' :: "# AC".data ++ '\n' :: A)
      = .ok ('\n' :: I ++ ['\n', '\n'], E ++ ['\n', '\n'], A) := by
  have hl18 : ("# Expected Results".data : Str).length = 18 := by decide
  have hl4 : ("# AC".data : Str).length = 4 := by decide
  have e1 : '\n' :: I ++ '\n' :: '\n' :: "# Expected Results".data
        ++ '\n' :: E ++ '\n' :: '\n' :: "# AC".data ++ '\n' :: A
      = ('\n' :: I ++ ['\n', '\n']) ++ "# Expected Results".data
        ++ ('\n' :: E ++ '\n' :: '\n' :: "# AC".data ++ '\n' :: A) := by
    simp [List.append_assoc]
  have hPocc : ¬ occursIn expectedResultsStr ('\n' :: lowerStr I ++ ['\n', '\n']) := by
    have h1 : ¬ occursIn expectedResultsStr ['\n'] := by decide
    have h2 := not_occursIn_append_cons expectedResultsStr (lowerStr I) ['\n'] '\n' hI h1
      (by decide)
    exact not_occursIn_cons expectedResultsStr '\n' (lowerStr I ++ '\n' :: ['\n'])
      (by decide) (by decide) h2
  have hfind1 : strFind expectedResultsStr
      (lowerStr ('\n' :: I ++ '\n' :: '\n' :: "# Expected Results".data
        ++ '\n' :: E ++ '\n' :: '\n' :: "# AC".data ++ '\n' :: A)) = some (I.length + 3) := by
    rw [e1, lowerStr_append, lowerStr_append, lower_hdrE]
    have := strFind_planted expectedResultsStr
      (lowerStr ('\n' :: I ++ ['\n', '\n']))
      (lowerStr ('\n' :: E ++ '\n' :: '\n' :: "# AC".data ++ '\n' :: A))
      (by simpa [lowerStr_cons, lowerStr_append] using hPocc) (by decide)
    rw [this]
    simp [lowerStr_length]
  rw [parseFields]
  rw [hfind1]
  simp only
  rw [if_pos (by simp only [List.length_append, List.length_cons, hl18, hl4]; omega)]
  have e2 : '\n' :: I ++ '\n' :: '\n' :: "# Expected Results".data
        ++ '\n' :: E ++ '\n' :: '\n' :: "# AC".data ++ '\n' :: A
      = (('\n' :: I ++ ['\n', '\n']) ++ "# Expected Results".data ++ ['\n'])
        ++ (E ++ '\n' :: '\n' :: "# AC".data ++ '\n' :: A) := by
    simp [List.append_assoc]
  have htake1 : ('\n' :: I ++ '\n' :: '\n' :: "# Expected Results".data
        ++ '\n' :: E ++ '\n' :: '\n' :: "# AC".data ++ '\n' :: A).take (I.length + 3)
      = '\n' :: I ++ ['\n', '\n'] := by
    rw [e1]
    rw [List.append_assoc]
    exact List.take_left' (by simp)
  have hdrop1 : ('\n' :: I ++ '\n' :: '\n' :: "# Expected Results".data
        ++ '\n' :: E ++ '\n' :: '\n' :: "# AC".data ++ '\n' :: A).drop (I.length + 3 + 19)
      = E ++ '\n' :: '\n' :: "# AC".data ++ '\n' :: A := by
    rw [e2]
    exact List.drop_left' (by simp [hl18])
  rw [htake1, hdrop1]
  have e3 : E ++ '\n' :: '\n' :: "# AC".data ++ '\n' :: A
      = (E ++ ['\n', '\n']) ++ "# AC".data ++ ('\n' :: A) := by
    simp [List.append_assoc]
  have hP2occ : ¬ occursIn acStr (lowerStr E ++ ['\n', '\n']) := by
    have h1 : ¬ occursIn acStr ['\n'] := by decide
    exact not_occursIn_append_cons acStr (lowerStr E) ('\n' :: []) '\n' hE
      (not_occursIn_cons acStr '\n' [] (by decide) (by decide) (by decide)) (by decide)
  have hfind2 : strFind acStr (lowerStr (E ++ '\n' :: '\n' :: "# AC".data ++ '\n' :: A))
      = some (E.length + 2) := by
    rw [e3, lowerStr_append, lowerStr_append, lower_hdrA]
    have := strFind_planted acStr (lowerStr (E ++ ['\n', '\n'])) (lowerStr ('\n' :: A))
      (by simpa [lowerStr_append] using hP2occ) (by decide)
    rw [this]
    simp [lowerStr_length]
  rw [hfind2]
  simp only
  rw [if_pos (by simp only [List.length_append, List.length_cons, hl4]; omega)]
  have htake2 : (E ++ '\n' :: '\n' :: "# AC".data ++ '\n' :: A).take (E.length + 2)
      = E ++ ['\n', '\n'] := by
    rw [e3, List.append_assoc]
    exact List.take_left' (by simp)
  have hdrop2 : (E ++ '\n' :: '\n' :: "# AC".data ++ '\n' :: A).drop (E.length + 2 + 5)
      = A := by
    have e4 : E ++ '\n' :: '\n' :: "# AC".data ++ '\n' :: A
        = ((E ++ ['\n', '\n']) ++ "# AC".data ++ ['\n']) ++ A := by
      simp [List.append_assoc]
    rw [e4]
    exact List.drop_left' (by simp [hl4])
  rw [htake2, hdrop2]

theorem noOcc_render (p s₁ s₂ s₃ s₄ s₅ s₆ : Str)
    (hp : p ≠ []) (hnl : '\n' ∉ p)
    (h₁ : ¬ occursIn p s₁) (h₂ : ¬ occursIn p s₂) (h₃ : ¬ occursIn p s₃)
    (h₄ : ¬ occursIn p s₄) (h₅ : ¬ occursIn p s₅) (h₆ : ¬ occursIn p s₆) :
    ¬ occursIn p (s₁ ++ '\n' :: s₂ ++ '\n' :: '\n' :: s₃ ++ '\n' :: s₄
      ++ '\n' :: '\n' :: s₅ ++ '\n' :: s₆) := by
  have e : s₁ ++ '\n' :: s₂ ++ '\n' :: '\n' :: s₃ ++ '\n' :: s₄
        ++ '\n' :: '\n' :: s₅ ++ '\n' :: s₆
      = s₁ ++ '\n' :: (s₂ ++ '\n' :: ('\n' :: (s₃ ++ '\n' :: (s₄
        ++ '\n' :: ('\n' :: (s₅ ++ '\n' :: s₆)))))) := by
    simp [List.append_assoc]
  rw [e]
  have u1 := not_occursIn_append_cons p s₅ s₆ '\n' h₅ h₆ hnl
  have u2 := not_occursIn_cons p '\n' (s₅ ++ '\n' :: s₆) hp hnl u1
  have u3 := not_occursIn_append_cons p s₄ ('\n' :: (s₅ ++ '\n' :: s₆)) '\n' h₄ u2 hnl
  have u4 := not_occursIn_append_cons p s₃ (s₄ ++ '\n' :: ('\n' :: (s₅ ++ '\n' :: s₆))) '\n'
    h₃ u3 hnl
  have u5 := not_occursIn_cons p '\n' (s₃ ++ '\n' :: (s₄ ++ '\n' :: ('\n' :: (s₅ ++ '\n' :: s₆))))
    hp hnl u4
  have u6 := not_occursIn_append_cons p s₂
    ('\n' :: (s₃ ++ '\n' :: (s₄ ++ '\n' :: ('\n' :: (s₅ ++ '\n' :: s₆))))) '\n' h₂ u5 hnl
  exact not_occursIn_append_cons p s₁
    (s₂ ++ '\n' :: ('\n' :: (s₃ ++ '\n' :: (s₄ ++ '\n' :: ('\n' :: (s₅ ++ '\n' :: s₆)))))) '\n'
    h₁ u6 hnl

theorem lower_nl : Char.toLower '\n' = '\n' := by decide

theorem lower_render (pre I E A : Str) :
    lowerStr (pre ++ '\n' :: I ++ '\n' :: '\n' :: "# Expected Results".data
      ++ '\n' :: E ++ '\n' :: '\n' :: "# AC".data ++ '\n' :: A)
    = lowerStr pre ++ '\n' :: lowerStr I ++ '\n' :: '\n' :: expectedResultsStr
      ++ '\n' :: lowerStr E ++ '\n' :: '\n' :: acStr ++ '\n' :: lowerStr A := by
  have h1 := lower_hdrE
  have h2 := lower_hdrA
  revert h1 h2
  generalize ("# Expected Results".data : Str) = hdrE
  generalize ("# AC".data : Str) = hdrA
  intro h1 h2
  simp only [lowerStr_append, lowerStr_cons, lower_nl, h1, h2]

theorem not_occursIn_lower_trim (p f : Str) (h : ¬ occursIn p (lowerStr f)) :
    ¬ occursIn p (lowerStr (trimStr f)) :=
  fun hc => h ( occursIn_of_infix p (lowerStr (trimStr f)) (lowerStr f) hc
    ( List.IsInfix.map Char.toLower ( trimStr_infix f)))

theorem findOpening_new (lower : Str) {i : Nat}
    (h : strFind newSectionStr lower = some i) :
    findOpening lower = some (i, true, false) := by
  unfold findOpening
  rw [h]
  rfl

theorem findOpening_comment (lower : Str) {i : Nat}
    (hn : strFind newSectionStr lower = none)
    (h : strFind commentSectionStr lower = some i) :
    findOpening lower = some (i, false, true) := by
  unfold findOpening
  rw [hn, h]
  rfl

theorem findOpening_fallback (lower : Str) {i : Nat}
    (hn : strFind newSectionStr lower = none)
    (hc : strFind commentSectionStr lower = none)
    (h : strFind instructionsStr lower = some i) :
    findOpening lower = some (i, false, false) := by
  unfold findOpening
  rw [hn, hc, h]
  rfl

theorem parseMarkdown_of_opening (pre : Str) (isNS isSC : Bool) (I E A : Str)
    (hI : ¬ occursIn expectedResultsStr (lowerStr I))
    (hE : ¬ occursIn acStr (lowerStr E))
    (hopen : findOpening (lowerStr (pre ++ '\n' :: I ++ '\n' :: '\n'
        :: "# Expected Results".data
        ++ '\n' :: E ++ '\n' :: '\n' :: "# AC".data ++ '\n' :: A)) = some (0, isNS, isSC))
    (hoff : (if isNS then newSectionStr.length else if isSC then commentSectionStr.length
        else instructionsStr.length) = pre.length) :
    parseMarkdown (pre ++ '\n' :: I ++ '\n' :: '\n' :: "# Expected Results".data
        ++ '\n' :: E ++ '\n' :: '\n' :: "# AC".data ++ '\n' :: A)
      = .ok ⟨isSC, isNS, '\n' :: I ++ ['\n', '\n'], E ++ ['\n', '\n'], A⟩ := by
  unfold parseMarkdown
  dsimp only
  rw [hopen]
  simp only [hoff, Nat.zero_add]
  have hdrop : (pre ++ '\n' :: I ++ '\n' :: '\n' :: "# Expected Results".data
      ++ '\n' :: E ++ '\n' :: '\n' :: "# AC".data ++ '\n' :: A).drop pre.length
      = '\n' :: I ++ '\n' :: '\n' :: "# Expected Results".data
      ++ '\n' :: E ++ '\n' :: '\n' :: "# AC".data ++ '\n' :: A := by
    have e : pre ++ '\n' :: I ++ '\n' :: '\n' :: "# Expected Results".data
        ++ '\n' :: E ++ '\n' :: '\n' :: "# AC".data ++ '\n' :: A
        = pre ++ ('\n' :: I ++ '\n' :: '\n' :: "# Expected Results".data
        ++ '\n' :: E ++ '\n' :: '\n' :: "# AC".data ++ '\n' :: A) := by
      simp [List.append_assoc]
    rw [e]
    exact List.drop_left' rfl
  rw [hdrop, parseFields_render I E A hI hE]

/-- The five header substrings that the grammar round-trip property forbids
inside the text fields. -/
def grammarAnchors : List Str :=
  [instructionsStr, newSectionStr, commentSectionStr, expectedResultsStr, acStr]

theorem lower_preNS : lowerStr "# New Section".data = newSectionStr := by decide

theorem lower_preCS : lowerStr "# Comment Section".data = commentSectionStr := by decide

theorem lower_preIS : lowerStr "# Instructions".data = instructionsStr := by decide

/-- C2 (amended): for a `TestStep` that does not carry both flags at once and
whose three text fields contain no case-insensitive occurrence of any of the
five header strings, `parse_markdown (gen_markdown step)` succeeds, the three
text fields survive up to trimming, and the two flags survive. -/
theorem c2_grammar_round_trip (s : TestStep)
    (hflags : ¬ (s.is_new_section ∧ s.is_stepless_comment))
    (hInstr : ∀ p ∈ grammarAnchors, ¬ occursIn p (lowerStr s.instructions))
    (hExp : ∀ p ∈ grammarAnchors, ¬ occursIn p (lowerStr s.expected_results))
    (hAc : ∀ p ∈ grammarAnchors, ¬ occursIn p (lowerStr s.ac)) :
    ∃ t, parseMarkdown (TestStep.gen_markdown s) = .ok t
      ∧ trimStr t.instructions = trimStr s.instructions
      ∧ trimStr t.expected_results = trimStr s.expected_results
      ∧ trimStr t.ac = trimStr s.ac
      ∧ t.is_new_section = s.is_new_section
      ∧ t.is_stepless_comment = s.is_stepless_comment := by
  have memER : expectedResultsStr ∈ grammarAnchors := by simp [grammarAnchors]
  have memAC : acStr ∈ grammarAnchors := by simp [grammarAnchors]
  have memNS : newSectionStr ∈ grammarAnchors := by simp [grammarAnchors]
  have memCS : commentSectionStr ∈ grammarAnchors := by simp [grammarAnchors]
  have hIer : ¬ occursIn expectedResultsStr (lowerStr (trimStr s.instructions)) :=
    not_occursIn_lower_trim _ _ (hInstr _ memER)
  have hEac : ¬ occursIn acStr (lowerStr (trimStr s.expected_results)) :=
    not_occursIn_lower_trim _ _ (hExp _ memAC)
  have hIns : ¬ occursIn newSectionStr (lowerStr (trimStr s.instructions)) :=
    not_occursIn_lower_trim _ _ (hInstr _ memNS)
  have hEns : ¬ occursIn newSectionStr (lowerStr (trimStr s.expected_results)) :=
    not_occursIn_lower_trim _ _ (hExp _ memNS)
  have hAns : ¬ occursIn newSectionStr (lowerStr (trimStr s.ac)) :=
    not_occursIn_lower_trim _ _ (hAc _ memNS)
  have hIcs : ¬ occursIn commentSectionStr (lowerStr (trimStr s.instructions)) :=
    not_occursIn_lower_trim _ _ (hInstr _ memCS)
  have hEcs : ¬ occursIn commentSectionStr (lowerStr (trimStr s.expected_results)) :=
    not_occursIn_lower_trim _ _ (hExp _ memCS)
  have hAcs : ¬ occursIn commentSectionStr (lowerStr (trimStr s.ac)) :=
    not_occursIn_lower_trim _ _ (hAc _ memCS)
  have tI : trimStr ('\n' :: trimStr s.instructions ++ ['\n', '\n']) = trimStr s.instructions := by
    simpa using trimStr_sandwich ['\n'] ['\n', '\n'] s.instructions (by decide) (by decide)
  have tE : trimStr (trimStr s.expected_results ++ ['\n', '\n']) = trimStr s.expected_results := by
    simpa using trimStr_sandwich [] ['\n', '\n'] s.expected_results (by decide) (by decide)
  have tA : trimStr (trimStr s.ac) = trimStr s.ac := trimStr_idem s.ac
  cases hns : s.is_new_section with
  | true =>
    have hsc : s.is_stepless_comment = false := by
      cases hsc : s.is_stepless_comment
      · rfl
      · exact absurd ⟨hns, hsc⟩ hflags
    have hgen : TestStep.gen_markdown s
        = "# New Section".data ++ '\n' :: trimStr s.instructions
          ++ '\n' :: '\n' :: "# Expected Results".data
          ++ '\n' :: trimStr s.expected_results
          ++ '\n' :: '\n' :: "# AC".data ++ '\n' :: trimStr s.ac := by
      unfold TestStep.gen_markdown
      rw [hns]
      rfl
    rw [hgen, parseMarkdown_of_opening "# New Section".data true false
      (trimStr s.instructions) (trimStr s.expected_results) (trimStr s.ac) hIer hEac
      (findOpening_new _ (by
        rw [lower_render, lower_preNS]
        simp only [List.append_assoc]
        exact strFind_of_prefix _ _ (List.prefix_append _ _)))
      (by decide)]
    exact ⟨_, rfl, tI, tE, tA, by simp [hns], by simp [hsc]⟩
  | false =>
    cases hsc : s.is_stepless_comment with
    | true =>
      have hgen : TestStep.gen_markdown s
          = "# Comment Section".data ++ '\n' :: trimStr s.instructions
            ++ '\n' :: '\n' :: "# Expected Results".data
            ++ '\n' :: trimStr s.expected_results
            ++ '\n' :: '\n' :: "# AC".data ++ '\n' :: trimStr s.ac := by
        unfold TestStep.gen_markdown
        rw [hns, hsc]
        rfl
      have hnone : strFind newSectionStr (lowerStr (TestStep.gen_markdown s)) = none := by
        rw [hgen, lower_render, lower_preCS]
        exact (strFind_none_iff _ _).mpr (noOcc_render newSectionStr commentSectionStr
          (lowerStr (trimStr s.instructions)) expectedResultsStr
          (lowerStr (trimStr s.expected_results)) acStr (lowerStr (trimStr s.ac))
          (by decide) (by decide) (by decide) hIns (by decide) hEns (by decide) hAns)
      rw [hgen] at hnone
      rw [hgen, parseMarkdown_of_opening "# Comment Section".data false true
        (trimStr s.instructions) (trimStr s.expected_results) (trimStr s.ac) hIer hEac
        (findOpening_comment _ hnone (by
          rw [lower_render, lower_preCS]
          simp only [List.append_assoc]
          exact strFind_of_prefix _ _ (List.prefix_append _ _)))
        (by decide)]
      exact ⟨_, rfl, tI, tE, tA, by simp [hns], by simp [hsc]⟩
    | false =>
      have hgen : TestStep.gen_markdown s
          = "# Instructions".data ++ '\n' :: trimStr s.instructions
            ++ '\n' :: '\n' :: "# Expected Results".data
            ++ '\n' :: trimStr s.expected_results
            ++ '\n' :: '\n' :: "# AC".data ++ '\n' :: trimStr s.ac := by
        unfold TestStep.gen_markdown
        rw [hns, hsc]
        rfl
      have hnone : strFind newSectionStr (lowerStr (TestStep.gen_markdown s)) = none := by
        rw [hgen, lower_render, lower_preIS]
        exact (strFind_none_iff _ _).mpr (noOcc_render newSectionStr instructionsStr
          (lowerStr (trimStr s.instructions)) expectedResultsStr
          (lowerStr (trimStr s.expected_results)) acStr (lowerStr (trimStr s.ac))
          (by decide) (by decide) (by decide) hIns (by decide) hEns (by decide) hAns)
      have hnone2 : strFind commentSectionStr (lowerStr (TestStep.gen_markdown s)) = none := by
        rw [hgen, lower_render, lower_preIS]
        exact (strFind_none_iff _ _).mpr (noOcc_render commentSectionStr instructionsStr
          (lowerStr (trimStr s.instructions)) expectedResultsStr
          (lowerStr (trimStr s.expected_results)) acStr (lowerStr (trimStr s.ac))
          (by decide) (by decide) (by decide) hIcs (by decide) hEcs (by decide) hAcs)
      rw [hgen] at hnone hnone2
      rw [hgen, parseMarkdown_of_opening "# Instructions".data false false
        (trimStr s.instructions) (trimStr s.expected_results) (trimStr s.ac) hIer hEac
        (findOpening_fallback _ hnone hnone2 (by
          rw [lower_render, lower_preIS]
          simp only [List.append_assoc]
          exact strFind_of_prefix _ _ (List.prefix_append _ _)))
        (by decide)]
      exact ⟨_, rfl, tI, tE, tA, by simp [hns], by simp [hsc]⟩

/-- The step that refutes C2 as stated: both optional flags set at once. -/
def c2CexStep : TestStep := ⟨true, true, [], [], []⟩

/-- C2 (counterexample): `c2CexStep` satisfies every hypothesis of the claim
(its three text fields are empty), parsing the rendered markdown succeeds,
but the parsed step has `is_stepless_comment = false` while the original has
`true`: `gen_markdown` renders the `# New Section` header whenever
`is_new_section` is set, and `parse_markdown` then never reports the comment
flag. The claim's "two boolean flags equal" fails. -/
theorem c2_counterexample :
    parseMarkdown (TestStep.gen_markdown c2CexStep)
      = .ok ⟨false, true, "\n\n\n".data, "\n\n".data, []⟩
    ∧ (false : Bool) ≠ c2CexStep.is_stepless_comment := by decide

/-- The spec's concrete example step, used as the C2 witness input. -/
def c2WitnessStep : TestStep := ⟨false, false, "Do X".data, "Y happens".data, "Z".data⟩

/-- C2 (witness): the amended round-trip theorem applied to the concrete step
`{instructions: "Do X", expected_results: "Y happens", ac: "Z"}`. -/
theorem c2_round_trip_witness :
    ∃ t, parseMarkdown (TestStep.gen_markdown c2WitnessStep) = .ok t
      ∧ trimStr t.instructions = trimStr c2WitnessStep.instructions
      ∧ trimStr t.expected_results = trimStr c2WitnessStep.expected_results
      ∧ trimStr t.ac = trimStr c2WitnessStep.ac
      ∧ t.is_new_section = c2WitnessStep.is_new_section
      ∧ t.is_stepless_comment = c2WitnessStep.is_stepless_comment :=
  c2_grammar_round_trip c2WitnessStep (by decide) (by decide) (by decide) (by decide)

theorem parseFields_ok_decomp (input I E A : Str)
    (h : parseFields input = .ok (I, E, A)) :
    ∃ w₁ w₂, input = I ++ (w₁ ++ (E ++ (w₂ ++ A)))
      ∧ w₁.length = 19 ∧ lowerStr (w₁.take 18) = expectedResultsStr
      ∧ w₂.length = 5 ∧ lowerStr (w₂.take 4) = acStr
      ∧ strFind expectedResultsStr (lowerStr input) = some I.length
      ∧ strFind acStr (lowerStr (input.drop (I.length + 19))) = some E.length := by
  unfold parseFields at h
  dsimp only at h
  rcases hf : strFind expectedResultsStr (lowerStr input) with - | idx
  · rw [hf] at h; dsimp only at h; cases h
  · rw [hf] at h
    dsimp only at h
    by_cases h19 : idx + 19 ≤ input.length
    · rw [if_pos h19] at h
      rcases hg : strFind acStr (lowerStr (input.drop (idx + 19))) with - | idx2
      · rw [hg] at h; dsimp only at h; cases h
      · rw [hg] at h
        dsimp only at h
        by_cases h5 : idx2 + 5 ≤ (input.drop (idx + 19)).length
        · rw [if_pos h5] at h
          injection h with h'
          injection h' with hI h'
          injection h' with hE hA
          have hocc := ((strFind_some_iff expectedResultsStr (lowerStr input) idx).mp hf).1
          have hocc2 := ((strFind_some_iff acStr
            (lowerStr (input.drop (idx + 19))) idx2).mp hg).1
          have hIlen : I.length = idx := by
            rw [← hI, List.length_take]
            have := occursAt_length _ _ _ hocc
            rw [lowerStr_length] at this
            omega
          have hElen : E.length = idx2 := by
            rw [← hE, List.length_take]
            have := occursAt_length _ _ _ hocc2
            rw [lowerStr_length] at this
            rw [List.length_drop] at this
            omega
          refine ⟨(input.drop idx).take 19, ((input.drop (idx + 19)).drop idx2).take 5,
            ?_, ?_, ?_, ?_, ?_, ?_, ?_⟩
          · rw [← hI, ← hE, ← hA]
            have hdd : (input.drop idx).drop 19 = input.drop (idx + 19) := by
              rw [List.drop_drop]
            have hdd2 : ((input.drop (idx + 19)).drop idx2).drop 5
                = (input.drop (idx + 19)).drop (idx2 + 5) := by
              rw [List.drop_drop]
            have e2 : input.drop (idx + 19) = (input.drop (idx + 19)).take idx2
                ++ (((input.drop (idx + 19)).drop idx2).take 5
                  ++ (input.drop (idx + 19)).drop (idx2 + 5)) := by
              rw [← hdd2, List.take_append_drop, List.take_append_drop]
            have e1 : input = input.take idx ++ ((input.drop idx).take 19
                ++ input.drop (idx + 19)) := by
              rw [← hdd, List.take_append_drop, List.take_append_drop]
            conv_lhs => rw [e1]
            congr 2
          · rw [List.length_take, List.length_drop]; omega
          · obtain ⟨a, b, heq, hlen⟩ := hocc
            have hdrop : (lowerStr input).drop idx = expectedResultsStr ++ b := by
              rw [heq, List.append_assoc, ← hlen]
              exact List.drop_left' rfl
            have htk : ((lowerStr input).drop idx).take 18 = expectedResultsStr := by
              rw [hdrop]
              exact List.take_left' (by decide)
            calc lowerStr (((input.drop idx).take 19).take 18)
                = lowerStr ((input.drop idx).take 18) := by
                  rw [List.take_take, show min 18 19 = 18 from by decide]
              _ = ((lowerStr input).drop idx).take 18 := by
                  simp only [lowerStr, List.map_take, List.map_drop]
              _ = expectedResultsStr := htk
          · rw [List.length_take, List.length_drop, List.length_drop]
            rw [List.length_drop] at h5
            omega
          · obtain ⟨a, b, heq, hlen⟩ := hocc2
            have hdrop : (lowerStr (input.drop (idx + 19))).drop idx2 = acStr ++ b := by
              rw [heq, List.append_assoc, ← hlen]
              exact List.drop_left' rfl
            have htk : ((lowerStr (input.drop (idx + 19))).drop idx2).take 4 = acStr := by
              rw [hdrop]
              exact List.take_left' (by decide)
            calc lowerStr ((((input.drop (idx + 19)).drop idx2).take 5).take 4)
                = lowerStr (((input.drop (idx + 19)).drop idx2).take 4) := by
                  rw [List.take_take, show min 4 5 = 4 from by decide]
              _ = ((lowerStr (input.drop (idx + 19))).drop idx2).take 4 := by
                  simp only [lowerStr, List.map_take, List.map_drop]
              _ = acStr := htk
          · rw [hIlen]
          · rw [hIlen, hElen]; exact hg
        · rw [if_neg h5] at h; cases h
    · rw [if_neg h19] at h; cases h

/-- C10: whenever `parse_markdown` succeeds, the text after the opening header
splits exactly as `instructions ++ w₁ ++ expected_results ++ w₂ ++ ac`, where
`w₁` is 19 characters long and starts with the first case-insensitive
occurrence of the 18-character `# expected results` anchor, and `w₂` is 5
characters long and starts with the first case-insensitive occurrence of the
4-character `# ac` anchor: the stored fields begin 19 (resp. 5) positions past
the anchor starts, so the single character following each anchor is consumed
and appears in no field of the result. -/
theorem c10_anchor_offsets (input : Str) (t : TestStep)
    (h : parseMarkdown input = .ok t) :
    ∃ pre w₁ w₂,
      input = pre ++ (t.instructions ++ (w₁ ++ (t.expected_results ++ (w₂ ++ t.ac))))
      ∧ w₁.length = 19 ∧ lowerStr (w₁.take 18) = expectedResultsStr
      ∧ w₂.length = 5 ∧ lowerStr (w₂.take 4) = acStr
      ∧ strFind expectedResultsStr
          (lowerStr (t.instructions ++ (w₁ ++ (t.expected_results ++ (w₂ ++ t.ac)))))
          = some t.instructions.length
      ∧ strFind acStr
          (lowerStr ((t.instructions ++ (w₁ ++ (t.expected_results ++ (w₂ ++ t.ac)))).drop
            (t.instructions.length + 19)))
          = some t.expected_results.length := by
  unfold parseMarkdown at h
  dsimp only at h
  rcases ho : findOpening (lowerStr input) with - | ⟨idx, bns, bsc⟩
  · rw [ho] at h; dsimp only at h; cases h
  · rw [ho] at h
    dsimp only at h
    rcases hp : parseFields (input.drop (idx + (if bns = true then newSectionStr.length
        else if bsc = true then commentSectionStr.length
        else instructionsStr.length))) with ⟨I, E, A⟩ | m | -
    · rw [hp] at h
      dsimp only at h
      injection h with h'
      obtain ⟨w₁, w₂, hdec, hw1, hw1t, hw2, hw2t, hf1, hf2⟩ :=
        parseFields_ok_decomp _ I E A hp
      have hfields : t.instructions = I ∧ t.expected_results = E ∧ t.ac = A := by
        rw [← h']
        exact ⟨rfl, rfl, rfl⟩
      obtain ⟨e1, e2, e3⟩ := hfields
      refine ⟨input.take (idx + (if bns = true then newSectionStr.length
        else if bsc = true then commentSectionStr.length
        else instructionsStr.length)), w₁, w₂, ?_, hw1, hw1t, hw2, hw2t, ?_, ?_⟩
      · rw [e1, e2, e3, ← hdec, List.take_append_drop]
      · rw [e1, e2, e3, ← hdec]
        exact hf1
      · rw [e1, e2, e3, ← hdec]
        exact hf2
    · rw [hp] at h; dsimp only at h; cases h
    · rw [hp] at h; dsimp only at h; cases h

/-- The header-length offset chosen by `parse_markdown` (src/test_step.rs 76-82). -/
def openingOffset (bns bsc : Bool) : Nat :=
  if bns then newSectionStr.length
  else if bsc then commentSectionStr.length
  else instructionsStr.length

theorem findOpening_none_iff (lower : Str) :
    findOpening lower = none ↔
      strFind newSectionStr lower = none ∧ strFind commentSectionStr lower = none
      ∧ strFind instructionsStr lower = none := by
  unfold findOpening
  rcases h1 : strFind newSectionStr lower with - | i <;>
    rcases h2 : strFind commentSectionStr lower with - | j <;>
      rcases h3 : strFind instructionsStr lower with - | k <;>
        simp [Option.map_none', Option.map_some']

theorem parseMarkdown_err_opening (input : Str)
    (h : findOpening (lowerStr input) = none) :
    parseMarkdown input = .err "Failed to find instructions" := by
  unfold parseMarkdown
  dsimp only
  rw [h]

theorem parseMarkdown_dispatch (input : Str) (i : Nat) (bns bsc : Bool)
    (ho : findOpening (lowerStr input) = some (i, bns, bsc)) :
    parseMarkdown input
      = match parseFields (input.drop (i + openingOffset bns bsc)) with
        | .ok (a, b, c) => .ok ⟨bsc, bns, a, b, c⟩
        | .err m => .err m
        | .panic => .panic := by
  unfold parseMarkdown openingOffset
  dsimp only
  rw [ho]

theorem parseFields_err_expected (rest : Str)
    (h : strFind expectedResultsStr (lowerStr rest) = none) :
    parseFields rest = .err "Could not find expected results section" := by
  unfold parseFields
  dsimp only
  rw [h]

theorem parseFields_err_ac (rest : Str) (j : Nat)
    (hj : strFind expectedResultsStr (lowerStr rest) = some j)
    (h19 : j + 19 ≤ rest.length)
    (h : strFind acStr (lowerStr (rest.drop (j + 19))) = none) :
    parseFields rest = .err "Could not find ac section" := by
  unfold parseFields
  dsimp only
  rw [hj]
  dsimp only
  rw [if_pos h19, h]

/-- C9 (amended): `parse_markdown` locates the opening header
case-insensitively in priority order — the new-section header first, then the
comment-section header, then the instructions fallback — sets the
corresponding flags on the parsed step, and fails with the missing-section
error naming the first absent anchor in the order checked (opening header,
then `# expected results`, then `# ac`) — provided each located anchor is
followed by at least one character; when the expected-results anchor ends the
text, `split_at(idx + 19)` panics instead of producing the `# ac` error. -/
theorem c9_opening_priority_error_order (input : Str) :
    (findOpening (lowerStr input) = none ↔
      strFind newSectionStr (lowerStr input) = none
      ∧ strFind commentSectionStr (lowerStr input) = none
      ∧ strFind instructionsStr (lowerStr input) = none)
    ∧ (findOpening (lowerStr input) = none →
        parseMarkdown input = .err "Failed to find instructions")
    ∧ (∀ i, strFind newSectionStr (lowerStr input) = some i →
        findOpening (lowerStr input) = some (i, true, false))
    ∧ (∀ i, strFind newSectionStr (lowerStr input) = none →
        strFind commentSectionStr (lowerStr input) = some i →
        findOpening (lowerStr input) = some (i, false, true))
    ∧ (∀ i, strFind newSectionStr (lowerStr input) = none →
        strFind commentSectionStr (lowerStr input) = none →
        strFind instructionsStr (lowerStr input) = some i →
        findOpening (lowerStr input) = some (i, false, false))
    ∧ (∀ i bns bsc t, findOpening (lowerStr input) = some (i, bns, bsc) →
        parseMarkdown input = .ok t →
        t.is_new_section = bns ∧ t.is_stepless_comment = bsc)
    ∧ (∀ i bns bsc, findOpening (lowerStr input) = some (i, bns, bsc) →
        strFind expectedResultsStr
          (lowerStr (input.drop (i + openingOffset bns bsc))) = none →
        parseMarkdown input = .err "Could not find expected results section")
    ∧ (∀ i bns bsc j, findOpening (lowerStr input) = some (i, bns, bsc) →
        strFind expectedResultsStr
          (lowerStr (input.drop (i + openingOffset bns bsc))) = some j →
        j + 19 ≤ (input.drop (i + openingOffset bns bsc)).length →
        strFind acStr
          (lowerStr ((input.drop (i + openingOffset bns bsc)).drop (j + 19))) = none →
        parseMarkdown input = .err "Could not find ac section") := by
  refine ⟨findOpening_none_iff _, parseMarkdown_err_opening input,
    fun i h => findOpening_new _ h,
    fun i hn h => findOpening_comment _ hn h,
    fun i hn hc h => findOpening_fallback _ hn hc h,
    ?_, ?_, ?_⟩
  · intro i bns bsc t ho hok
    rw [parseMarkdown_dispatch input i bns bsc ho] at hok
    rcases hp : parseFields (input.drop (i + openingOffset bns bsc)) with ⟨a, b, c⟩ | m | -
    · rw [hp] at hok
      dsimp only at hok
      injection hok with h'
      rw [← h']
      exact ⟨rfl, rfl⟩
    · rw [hp] at hok; dsimp only at hok; cases hok
    · rw [hp] at hok; dsimp only at hok; cases hok
  · intro i bns bsc ho hfe
    rw [parseMarkdown_dispatch input i bns bsc ho, parseFields_err_expected _ hfe]
  · intro i bns bsc j ho hj h19 hac
    rw [parseMarkdown_dispatch input i bns bsc ho, parseFields_err_ac _ j hj h19 hac]

/-- The input refuting C9 as stated: the expected-results anchor is the final
text of the document. -/
def c9CexInput : Str := "# Instructions# expected results".data

/-- C9 (counterexample): on `c9CexInput` the `# ac` anchor is absent, so the
claim requires parse_markdown to fail with the missing-section error naming
`# ac`; instead the code panics, because after the opening split the
expected-results anchor occupies the last 18 bytes and
`input.split_at(idx + 19)` (src/test_step.rs 93) indexes past the end. -/
theorem c9_counterexample :
    parseMarkdown c9CexInput = .panic
    ∧ (PResult.panic : PResult TestStep) ≠ .err "Could not find ac section" := by
  decide

/-- C9 (witness): the amended theorem applied at concrete inputs — an input
with no opening anchor yields the instructions error, and one with an opening
anchor but no expected-results anchor yields the expected-results error. -/
theorem c9_witness :
    parseMarkdown "no anchors here".data = .err "Failed to find instructions"
    ∧ parseMarkdown "# Instructions only".data
      = .err "Could not find expected results section" := by
  constructor
  · exact (c9_opening_priority_error_order "no anchors here".data).2.1 (by decide)
  · exact (c9_opening_priority_error_order "# Instructions only".data).2.2.2.2.2.2.1
      0 false false (by decide) (by decide)

/-- Concrete input for the C10 witness. -/
def c10WitnessInput : Str :=
  "# Instructions\nDo X\n\n# Expected Results\nY happens\n\n# AC\nZ".data

/-- The step that `parse_markdown` returns on `c10WitnessInput`. -/
def c10WitnessStep : TestStep :=
  ⟨false, false, "\nDo X\n\n".data, "Y happens\n\n".data, "Z".data⟩

/-- C10 (witness): the anchor-offset decomposition at a concrete successful
parse. -/
theorem c10_witness :
    ∃ pre w₁ w₂,
      c10WitnessInput = pre ++ (c10WitnessStep.instructions ++ (w₁
        ++ (c10WitnessStep.expected_results ++ (w₂ ++ c10WitnessStep.ac))))
      ∧ w₁.length = 19 ∧ lowerStr (w₁.take 18) = expectedResultsStr
      ∧ w₂.length = 5 ∧ lowerStr (w₂.take 4) = acStr
      ∧ strFind expectedResultsStr
          (lowerStr (c10WitnessStep.instructions ++ (w₁
            ++ (c10WitnessStep.expected_results ++ (w₂ ++ c10WitnessStep.ac)))))
          = some c10WitnessStep.instructions.length
      ∧ strFind acStr
          (lowerStr ((c10WitnessStep.instructions ++ (w₁
            ++ (c10WitnessStep.expected_results ++ (w₂ ++ c10WitnessStep.ac)))).drop
              (c10WitnessStep.instructions.length + 19)))
          = some c10WitnessStep.expected_results.length :=
  c10_anchor_offsets c10WitnessInput c10WitnessStep (by decide)

/-- The editing-session state carrying the specified core: the live document
(`items`), the table selection (`state.selected()`), the one-slot register
(`internal_clipboard`) and the template store (`config.templates`)
(src/app.rs 103-115). The model covers the UAT window, where
`length_constraint` is `items.len()`; purely visual fields (colors,
scrollbar, message line) are omitted. -/
structure AppState where
  items : List TestStep
  selected : Option Nat
  internalClipboard : Option TestStep
  templates : List (String × List TestStep)
deriving DecidableEq, Repr

/-- `App::new` (src/app.rs 118-154): the item list starts empty and the table
state is `TableState::default().with_selected(0)`, so the selection is
`some 0` although the document is empty. -/
def appNew (templates : List (String × List TestStep)) : AppState :=
  { items := [], selected := some 0, internalClipboard := none,
    templates := templates }

/-- `App::length_constraint` in the UAT window (src/app.rs 225-230). -/
def lengthConstraint (s : AppState) : Nat := s.items.length

/-- `App::delta_selection` (src/app.rs 232-234):
`((i as isize + delta).abs() % self.length_constraint() as isize) as usize`.
The remainder panics when `length_constraint()` is zero. -/
def deltaSelection (s : AppState) (i : Nat) (delta : Int) : PResult Nat :=
  if lengthConstraint s = 0 then .panic
  else .ok (((i : Int) + delta).natAbs % lengthConstraint s)

/-- `App::delta_row_impl` (src/app.rs 236-244); the scrollbar update is
display-only and omitted. -/
def deltaRowImpl (s : AppState) (delta : Int) : PResult AppState :=
  match s.selected with
  | some i =>
    match deltaSelection s i delta with
    | .ok j => .ok { s with selected := some j }
    | .err m => .err m
    | .panic => .panic
  | none => .ok { s with selected := some 0 }

/-- `App::next_row` (src/app.rs 246-248). -/
def nextRow (s : AppState) : PResult AppState := deltaRowImpl s 1

/-- `App::previous_row` (src/app.rs 250-252). -/
def previousRow (s : AppState) : PResult AppState := deltaRowImpl s (-1)

/-- `App::grab_selection_as_mut` (src/app.rs 284-295), as a read of the
selected step. -/
def grabSelection (s : AppState) : Except String (Nat × TestStep) :=
  match s.selected with
  | none => .error "No item is currently selected"
  | some idx =>
    match s.items[idx]? with
    | none => .error "Items vec did not contain index"
    | some d => .ok (idx, d)

/-- `App::yank` (src/app.rs 326-330). -/
def yank (s : AppState) : PResult AppState :=
  match grabSelection s with
  | .error m => .err m
  | .ok (_, item) => .ok { s with internalClipboard := some item }

/-- `App::delete_yank` (src/app.rs 332-339): `Vec::remove(idx)` panics when
`idx` is out of bounds. -/
def deleteYank (s : AppState) : PResult AppState :=
  match s.selected with
  | none => .err "No row selected to delete"
  | some idx =>
    if h : idx < s.items.length then
      .ok { s with internalClipboard := some (s.items[idx])
                 , items := s.items.eraseIdx idx }
    else .panic

/-- `InsertDirection` (src/app.rs 71-74). -/
inductive InsertDirection where
  | up
  | down
deriving DecidableEq

/-- `App::paste` (src/app.rs 341-363): `Vec::insert` panics when the insertion
index exceeds the current length. -/
def paste (s : AppState) (direction : InsertDirection) : PResult AppState :=
  match s.selected with
  | none => .err "No row selected to paste"
  | some idx =>
    match s.internalClipboard with
    | none => .err "No step in internal register"
    | some item =>
      match direction with
      | .up =>
        if idx ≤ s.items.length then
          .ok { s with items := s.items.insertIdx idx item }
        else .panic
      | .down =>
        if idx + 1 ≤ s.items.length then
          .ok { s with items := s.items.insertIdx (idx + 1) item }
        else .panic

/-- C3 (code evidence): in the initial session state of `App::new` the
document is empty yet the selection is `some 0` — an out-of-range selection on
the empty document, contradicting the claimed invariant — and the operations
requiring a selection do not fail with the no-selection error: cut
(`delete_yank`) panics in `Vec::remove(0)`, yank fails with the index error,
and paste Down (with a non-empty register) panics in `Vec::insert(1, ..)`. -/
theorem c3_empty_state_violation (templates : List (String × List TestStep)) :
    (appNew templates).items = []
    ∧ (appNew templates).selected = some 0
    ∧ ¬ (0 < (appNew templates).items.length)
    ∧ deleteYank (appNew templates) = .panic
    ∧ yank (appNew templates) = .err "Items vec did not contain index"
    ∧ paste { appNew templates with
        internalClipboard := some (TestStep.new false false) } .down = .panic :=
  ⟨rfl, rfl, by simp [appNew], rfl, rfl, rfl⟩

/-- C4 (code evidence): on the initial, empty document both selection moves
panic — `delta_selection` evaluates `.. % 0` — instead of being a no-op or a
defined no-selection state. -/
theorem c4_empty_move_panics (templates : List (String × List TestStep)) :
    nextRow (appNew templates) = .panic ∧ previousRow (appNew templates) = .panic :=
  ⟨rfl, rfl⟩

/-- C5 (amended): with a nonempty document and a selection present,
`move_selection(delta)` sets the new index to `|i + delta| % N` — the absolute
value of `i + delta` reduced modulo `N` — which is not the mathematical
modulus when `i + delta` is negative. -/
theorem c5_selection_abs_mod (s : AppState) (i : Nat) (delta : Int)
    (hsel : s.selected = some i) (hlen : 0 < s.items.length) :
    deltaRowImpl s delta
      = .ok { s with selected := some (((i : Int) + delta).natAbs % s.items.length) } := by
  unfold deltaRowImpl
  rw [hsel]
  unfold deltaSelection lengthConstraint
  simp [show s.items.length ≠ 0 from by omega]

/-- A three-step document with the first row selected. -/
def c5CexState : AppState :=
  { items := [TestStep.new false false, TestStep.new false false,
      TestStep.new false false],
    selected := some 0, internalClipboard := none, templates := [] }

/-- C5 (counterexample): at length 3, index 0, delta −1 the code selects
index |0 − 1| % 3 = 1, whereas the claim's mathematical modulus
(0 + (−1)) mod 3 is 2. -/
theorem c5_counterexample :
    deltaRowImpl c5CexState (-1) = .ok { c5CexState with selected := some 1 }
    ∧ (((0 : Int) + (-1)).emod 3).toNat = 2
    ∧ (1 : Nat) ≠ 2 := by decide

/-- C5 (witness): the amended theorem at length 3, index 0, delta −1. -/
theorem c5_witness :
    deltaRowImpl c5CexState (-1)
      = .ok { c5CexState with
          selected := some ((((0 : Nat) : Int) + (-1)).natAbs % c5CexState.items.length) } :=
  c5_selection_abs_mod c5CexState 0 (-1) rfl (by decide)

/-- C6: for any document length N > 0, any current index i in [0, N) and any
delta, the index computed by `delta_selection` lies in [0, N). -/
theorem c6_selection_in_range (s : AppState) (i j : Nat) (delta : Int)
    (hi : i < s.items.length) (h : deltaSelection s i delta = .ok j) :
    j < s.items.length := by
  unfold deltaSelection lengthConstraint at h
  by_cases h0 : s.items.length = 0
  · rw [if_pos h0] at h; cases h
  · rw [if_neg h0] at h
    injection h with h'
    rw [← h']
    exact Nat.mod_lt _ (by omega)

/-- C6 (witness): at length 3, index 0, delta −5 the computed index 2 is in
range. -/
theorem c6_witness :
    deltaSelection c5CexState 0 (-5) = .ok 2 ∧ 2 < c5CexState.items.length :=
  ⟨by decide, c6_selection_in_range c5CexState 0 2 (-5) (by decide) (by decide)⟩

/-- C7 (amended): cutting the selected step at a non-final index `i` removes
it from the document and places it in the register, and an immediately
following paste Down re-inserts the equal-content copy at index `i + 1` of the
shortened document — not at index `i` as the claim states — leaving every
other step in order. (When `i` is the last index, the insertion index `i + 1`
exceeds the shortened length and `Vec::insert` panics.) -/
theorem c7_cut_paste_down (s : AppState) (i : Nat)
    (hsel : s.selected = some i) (hlt : i + 1 < s.items.length) :
    ∃ s₁ s₂, deleteYank s = .ok s₁
      ∧ s₁.internalClipboard = some (s.items.getD i (TestStep.new false false))
      ∧ s₁.items = s.items.eraseIdx i
      ∧ s₁.selected = some i
      ∧ paste s₁ .down = .ok s₂
      ∧ s₂.items = (s.items.eraseIdx i).insertIdx (i + 1)
          (s.items.getD i (TestStep.new false false))
      ∧ s₂.internalClipboard = some (s.items.getD i (TestStep.new false false)) := by
  have hi : i < s.items.length := by omega
  have hgetD : s.items.getD i (TestStep.new false false) = s.items[i] :=
    List.getD_eq_getElem s.items (TestStep.new false false) hi
  have h1 : deleteYank s = .ok { s with internalClipboard := some (s.items[i]), items := s.items.eraseIdx i } := by
    unfold deleteYank
    rw [hsel]
    dsimp only
    rw [dif_pos hi]
  have hlen1 : (s.items.eraseIdx i).length = s.items.length - 1 :=
    List.length_eraseIdx_of_lt hi
  have h2 : paste { s with internalClipboard := some (s.items[i]), items := s.items.eraseIdx i } .down
      = .ok { s with internalClipboard := some (s.items[i]), items := (s.items.eraseIdx i).insertIdx (i + 1) (s.items[i]) } := by
    unfold paste
    dsimp only
    rw [hsel]
    dsimp only
    rw [if_pos (by rw [hlen1]; omega)]
  exact ⟨_, _, h1, by rw [hgetD], rfl, hsel, h2, by rw [hgetD], by rw [hgetD]⟩

def stepA : TestStep := ⟨false, false, "a".data, [], []⟩

def stepB : TestStep := ⟨false, false, "b".data, [], []⟩

def stepC : TestStep := ⟨false, false, "c".data, [], []⟩

/-- The document [a, b, c] with index 1 selected. -/
def c7CexState : AppState :=
  { items := [stepA, stepB, stepC], selected := some 1,
    internalClipboard := none, templates := [] }

/-- The state after cutting index 1 of [a, b, c]. -/
def c7CexAfterCut : AppState :=
  { items := [stepA, stepC], selected := some 1,
    internalClipboard := some stepB, templates := [] }

/-- The state after the subsequent paste Down. -/
def c7CexAfterPaste : AppState :=
  { items := [stepA, stepC, stepB], selected := some 1,
    internalClipboard := some stepB, templates := [] }

/-- A one-step document with its only (last) index selected. -/
def c7LastState : AppState :=
  { items := [stepA], selected := some 0, internalClipboard := none,
    templates := [] }

/-- The one-step document after cutting its only step. -/
def c7LastAfterCut : AppState :=
  { items := [], selected := some 0, internalClipboard := some stepA,
    templates := [] }

/-- C7 (counterexample): cutting index 1 of [a, b, c] and immediately pasting
Down yields [a, c, b] — the copy lands at index 2 = selected + 1, not back at
index 1 as the claim states, so the result differs from [a, b, c]. And when
the cut index was the last one, the paste does not insert at the end: it
panics, because the insertion index exceeds the shortened length. -/
theorem c7_counterexample :
    deleteYank c7CexState = .ok c7CexAfterCut
    ∧ paste c7CexAfterCut .down = .ok c7CexAfterPaste
    ∧ c7CexAfterPaste.items ≠ [stepA, stepB, stepC]
    ∧ deleteYank c7LastState = .ok c7LastAfterCut
    ∧ paste c7LastAfterCut .down = .panic := by decide

/-- C7 (witness): the amended cut/paste theorem on [a, b, c] with index 1
selected. -/
theorem c7_witness :
    ∃ s₁ s₂, deleteYank c7CexState = .ok s₁
      ∧ s₁.internalClipboard = some (c7CexState.items.getD 1 (TestStep.new false false))
      ∧ s₁.items = c7CexState.items.eraseIdx 1
      ∧ s₁.selected = some 1
      ∧ paste s₁ .down = .ok s₂
      ∧ s₂.items = (c7CexState.items.eraseIdx 1).insertIdx 2
          (c7CexState.items.getD 1 (TestStep.new false false))
      ∧ s₂.internalClipboard = some (c7CexState.items.getD 1 (TestStep.new false false)) :=
  c7_cut_paste_down c7CexState 1 rfl (by decide)

/-- The standard base64 alphabet of `BASE64_STANDARD` (src/app.rs 7, 159). -/
def b64Alphabet : Str :=
  "ABCDEFGHIJKLMNOPQRSTUVWXYZabcdefghijklmnopqrstuvwxyz0123456789+/".data

def b64Char (n : Nat) : Char := b64Alphabet.getD n 'A'

def b64Val (c : Char) : Option Nat :=
  let i := b64Alphabet.indexOf c
  if i < 64 then some i else none

/-- Base64 encoding with padding, modelling the `BASE64_STANDARD.encode`
black box (src/app.rs 159). -/
def base64Encode : List Nat → Str
  | [] => []
  | [a] => [b64Char (a / 4), b64Char (a % 4 * 16), '=', '=']
  | [a, b] => [b64Char (a / 4), b64Char (a % 4 * 16 + b / 16), b64Char (b % 16 * 4), '=']
  | a :: b :: d :: rest =>
    b64Char (a / 4) :: b64Char (a % 4 * 16 + b / 16)
      :: b64Char (b % 16 * 4 + d / 64) :: b64Char (d % 64) :: base64Encode rest

/-- Base64 decoding, modelling the `BASE64_STANDARD.decode` black box
(src/app.rs 168-170): it inverts `base64Encode` and rejects ill-formed
input. -/
def base64Decode : Str → Except String (List Nat)
  | [] => .ok []
  | c1 :: c2 :: c3 :: c4 :: rest =>
    match b64Val c1, b64Val c2 with
    | some v1, some v2 =>
      if c3 = '=' then
        if c4 = '=' ∧ rest = [] ∧ v2 % 16 = 0 then .ok [v1 * 4 + v2 / 16]
        else .error "invalid padding"
      else
        match b64Val c3 with
        | some v3 =>
          if c4 = '=' then
            if rest = [] ∧ v3 % 4 = 0 then .ok [v1 * 4 + v2 / 16, v2 % 16 * 16 + v3 / 4]
            else .error "invalid padding"
          else
            match b64Val c4 with
            | some v4 =>
              match base64Decode rest with
              | .ok r =>
                .ok ((v1 * 4 + v2 / 16) :: (v2 % 16 * 16 + v3 / 4)
                  :: (v3 % 4 * 64 + v4) :: r)
              | .error e => .error e
            | none => .error "invalid symbol"
        | none => .error "invalid symbol"
    | _, _ => .error "invalid symbol"
  | _ => .error "invalid length"

theorem b64Val_b64Char : ∀ n < 64, b64Val (b64Char n) = some n := by decide

theorem b64Char_ne_eq : ∀ n < 64, b64Char n ≠ '=' := by decide

theorem b64Char_ne_quote : ∀ n < 64, b64Char n ≠ '"' := by decide

theorem base64_roundtrip : ∀ (l : List Nat), (∀ b ∈ l, b < 256) →
    base64Decode (base64Encode l) = .ok l
  | [], _ => rfl
  | [a], h => by
    have ha : a < 256 := h a (by simp)
    unfold base64Encode base64Decode
    rw [b64Val_b64Char (a / 4) (by omega), b64Val_b64Char (a % 4 * 16) (by omega)]
    dsimp only
    rw [if_pos rfl, if_pos ⟨rfl, rfl, by omega⟩]
    have : a / 4 * 4 + a % 4 * 16 / 16 = a := by omega
    rw [this]
  | [a, b], h => by
    have ha : a < 256 := h a (by simp)
    have hb : b < 256 := h b (by simp)
    unfold base64Encode base64Decode
    rw [b64Val_b64Char (a / 4) (by omega),
      b64Val_b64Char (a % 4 * 16 + b / 16) (by omega)]
    dsimp only
    rw [if_neg (b64Char_ne_eq (b % 16 * 4) (by omega)),
      b64Val_b64Char (b % 16 * 4) (by omega)]
    dsimp only
    rw [if_pos rfl, if_pos ⟨rfl, by omega⟩]
    have e1 : a / 4 * 4 + (a % 4 * 16 + b / 16) / 16 = a := by omega
    have e2 : (a % 4 * 16 + b / 16) % 16 * 16 + b % 16 * 4 / 4 = b := by omega
    rw [e1, e2]
  | [a, b, d], h => by
    have ha : a < 256 := h a (by simp)
    have hb : b < 256 := h b (by simp)
    have hd : d < 256 := h d (by simp)
    show base64Decode (b64Char (a / 4) :: b64Char (a % 4 * 16 + b / 16)
      :: b64Char (b % 16 * 4 + d / 64) :: b64Char (d % 64)
      :: base64Encode []) = .ok [a, b, d]
    unfold base64Decode
    rw [b64Val_b64Char (a / 4) (by omega),
      b64Val_b64Char (a % 4 * 16 + b / 16) (by omega)]
    dsimp only
    rw [if_neg (b64Char_ne_eq (b % 16 * 4 + d / 64) (by omega)),
      b64Val_b64Char (b % 16 * 4 + d / 64) (by omega)]
    dsimp only
    rw [if_neg (b64Char_ne_eq (d % 64) (by omega)),
      b64Val_b64Char (d % 64) (by omega)]
    dsimp only
    rw [show base64Decode (base64Encode ([] : List Nat)) = Except.ok [] from rfl]
    have e1 : a / 4 * 4 + (a % 4 * 16 + b / 16) / 16 = a := by omega
    have e2 : (a % 4 * 16 + b / 16) % 16 * 16 + (b % 16 * 4 + d / 64) / 4 = b := by omega
    have e3 : (b % 16 * 4 + d / 64) % 4 * 64 + d % 64 = d := by omega
    rw [e1, e2, e3]
  | a :: b :: d :: e :: rest, h => by
    have ha : a < 256 := h a (by simp)
    have hb : b < 256 := h b (by simp)
    have hd : d < 256 := h d (by simp)
    have ih := base64_roundtrip (e :: rest) (fun x hx => h x (by simp at hx ⊢; tauto))
    show base64Decode (b64Char (a / 4) :: b64Char (a % 4 * 16 + b / 16)
      :: b64Char (b % 16 * 4 + d / 64) :: b64Char (d % 64)
      :: base64Encode (e :: rest)) = .ok (a :: b :: d :: e :: rest)
    unfold base64Decode
    rw [b64Val_b64Char (a / 4) (by omega),
      b64Val_b64Char (a % 4 * 16 + b / 16) (by omega)]
    dsimp only
    rw [if_neg (b64Char_ne_eq (b % 16 * 4 + d / 64) (by omega)),
      b64Val_b64Char (b % 16 * 4 + d / 64) (by omega)]
    dsimp only
    rw [if_neg (b64Char_ne_eq (d % 64) (by omega)),
      b64Val_b64Char (d % 64) (by omega)]
    dsimp only
    rw [ih]
    have e1 : a / 4 * 4 + (a % 4 * 16 + b / 16) / 16 = a := by omega
    have e2 : (a % 4 * 16 + b / 16) % 16 * 16 + (b % 16 * 4 + d / 64) / 4 = b := by omega
    have e3 : (b % 16 * 4 + d / 64) % 4 * 64 + d % 64 = d := by omega
    rw [e1, e2, e3]

theorem base64Encode_no_quote : ∀ (l : List Nat), (∀ b ∈ l, b < 256) →
    ∀ c ∈ base64Encode l, c ≠ '"'
  | [], _ => by simp [base64Encode]
  | [a], h => by
    have ha : a < 256 := h a (by simp)
    intro c hc
    unfold base64Encode at hc
    simp only [List.mem_cons, List.not_mem_nil, or_false] at hc
    rcases hc with rfl | rfl | rfl | rfl
    · exact b64Char_ne_quote (a / 4) (by omega)
    · exact b64Char_ne_quote (a % 4 * 16) (by omega)
    · decide
    · decide
  | [a, b], h => by
    have ha : a < 256 := h a (by simp)
    have hb : b < 256 := h b (by simp)
    intro c hc
    unfold base64Encode at hc
    simp only [List.mem_cons, List.not_mem_nil, or_false] at hc
    rcases hc with rfl | rfl | rfl | rfl
    · exact b64Char_ne_quote (a / 4) (by omega)
    · exact b64Char_ne_quote (a % 4 * 16 + b / 16) (by omega)
    · exact b64Char_ne_quote (b % 16 * 4) (by omega)
    · decide
  | a :: b :: d :: rest, h => by
    have ha : a < 256 := h a (by simp)
    have hb : b < 256 := h b (by simp)
    have hd : d < 256 := h d (by simp)
    have ih := base64Encode_no_quote rest (fun x hx => h x (by simp [hx]))
    intro c hc
    rcases List.mem_cons.mp hc with rfl | hc2
    · exact b64Char_ne_quote (a / 4) (by omega)
    · rcases List.mem_cons.mp hc2 with rfl | hc3
      · exact b64Char_ne_quote (a % 4 * 16 + b / 16) (by omega)
      · rcases List.mem_cons.mp hc3 with rfl | hc4
        · exact b64Char_ne_quote (b % 16 * 4 + d / 64) (by omega)
        · rcases List.mem_cons.mp hc4 with rfl | hc5
          · exact b64Char_ne_quote (d % 64) (by omega)
          · exact ih c hc5

theorem char_toNat_lt (c : Char) : c.toNat < 1114112 := by
  rcases c.valid with h | ⟨h1, h2⟩
  · exact Nat.lt_trans h (by norm_num)
  · exact h2

/-- Little-endian base-255 digits (each < 255) terminated by the byte 255:
the length encoding of the concrete codec below. -/
def encNat (n : Nat) : List Nat := Nat.digits 255 n ++ [255]

def decNat : List Nat → Option (Nat × List Nat)
  | [] => none
  | b :: bs =>
    if b = 255 then some (0, bs)
    else
      match decNat bs with
      | some (n, rest) => some (b + 255 * n, rest)
      | none => none

theorem decNat_encNat (n : Nat) (rest : List Nat) :
    decNat (encNat n ++ rest) = some (n, rest) := by
  have key : ∀ ds : List Nat, (∀ d ∈ ds, d < 255) →
      decNat (ds ++ 255 :: rest) = some (Nat.ofDigits 255 ds, rest) := by
    intro ds
    induction ds with
    | nil =>
      intro _
      rw [List.nil_append]
      unfold decNat
      rw [if_pos rfl]
      simp [Nat.ofDigits]
    | cons d ds ih =>
      intro h
      have hd : d < 255 := h d (by simp)
      rw [List.cons_append]
      unfold decNat
      rw [if_neg (by omega), ih (fun x hx => h x (by simp [hx]))]
      dsimp only
      rw [Nat.ofDigits_cons]
  have hdig := key (Nat.digits 255 n) (fun d hd => Nat.digits_lt_base (by norm_num) hd)
  rw [encNat, List.append_assoc, List.cons_append, List.nil_append, hdig,
    Nat.ofDigits_digits]

/-- Fixed-width three-byte encoding of one character (code points are below
2^24). -/
def encChar (c : Char) : List Nat :=
  [c.toNat % 256, c.toNat / 256 % 256, c.toNat / 65536]

def decChar : List Nat → Option (Char × List Nat)
  | b0 :: b1 :: b2 :: rest => some (Char.ofNat (b0 + 256 * b1 + 65536 * b2), rest)
  | _ => none

theorem decChar_encChar (c : Char) (rest : List Nat) :
    decChar (encChar c ++ rest) = some (c, rest) := by
  unfold encChar
  rw [List.cons_append, List.cons_append, List.cons_append, List.nil_append]
  unfold decChar
  dsimp only
  have harith : c.toNat % 256 + 256 * (c.toNat / 256 % 256) + 65536 * (c.toNat / 65536)
      = c.toNat := by omega
  rw [harith, Char.ofNat_toNat]

def encStr (s : Str) : List Nat := encNat s.length ++ (s.map encChar).flatten

def decChars : Nat → List Nat → Option (Str × List Nat)
  | 0, bs => some ([], bs)
  | n + 1, bs =>
    match decChar bs with
    | some (c, bs1) =>
      match decChars n bs1 with
      | some (s, bs2) => some (c :: s, bs2)
      | none => none
    | none => none

def decStr (bs : List Nat) : Option (Str × List Nat) :=
  match decNat bs with
  | some (n, bs1) => decChars n bs1
  | none => none

theorem decChars_enc (s : Str) (rest : List Nat) :
    decChars s.length ((s.map encChar).flatten ++ rest) = some (s, rest) := by
  induction s with
  | nil => rfl
  | cons c t ih =>
    rw [List.map_cons, List.flatten_cons, List.append_assoc]
    show decChars (t.length + 1) (encChar c ++ ((t.map encChar).flatten ++ rest)) = _
    unfold decChars
    rw [decChar_encChar]
    dsimp only
    rw [ih]

theorem decStr_encStr (s : Str) (rest : List Nat) :
    decStr (encStr s ++ rest) = some (s, rest) := by
  rw [encStr, List.append_assoc]
  unfold decStr
  rw [decNat_encNat]
  dsimp only
  exact decChars_enc s rest

def encBool (b : Bool) : List Nat := [if b then 1 else 0]

def decBool : List Nat → Option (Bool × List Nat)
  | b :: bs => some (b == 1, bs)
  | [] => none

theorem decBool_encBool (b : Bool) (rest : List Nat) :
    decBool (encBool b ++ rest) = some (b, rest) := by
  cases b <;> rfl

def encStep (t : TestStep) : List Nat :=
  encBool t.is_stepless_comment ++ encBool t.is_new_section
    ++ encStr t.instructions ++ encStr t.expected_results ++ encStr t.ac

def decStep (bs : List Nat) : Option (TestStep × List Nat) :=
  match decBool bs with
  | some (sc, bs1) =>
    match decBool bs1 with
    | some (ns, bs2) =>
      match decStr bs2 with
      | some (i, bs3) =>
        match decStr bs3 with
        | some (e, bs4) =>
          match decStr bs4 with
          | some (a, bs5) => some (⟨sc, ns, i, e, a⟩, bs5)
          | none => none
        | none => none
      | none => none
    | none => none
  | none => none

theorem decStep_encStep (t : TestStep) (rest : List Nat) :
    decStep (encStep t ++ rest) = some (t, rest) := by
  rw [encStep, List.append_assoc, List.append_assoc, List.append_assoc,
    List.append_assoc]
  unfold decStep
  rw [decBool_encBool]
  dsimp only
  rw [decBool_encBool]
  dsimp only
  rw [decStr_encStr]
  dsimp only
  rw [decStr_encStr]
  dsimp only
  rw [decStr_encStr]

def encSteps (l : List TestStep) : List Nat := encNat l.length ++ (l.map encStep).flatten

def decStepsN : Nat → List Nat → Option (List TestStep × List Nat)
  | 0, bs => some ([], bs)
  | n + 1, bs =>
    match decStep bs with
    | some (t, bs1) =>
      match decStepsN n bs1 with
      | some (ts, bs2) => some (t :: ts, bs2)
      | none => none
    | none => none

def decSteps (bs : List Nat) : Option (List TestStep × List Nat) :=
  match decNat bs with
  | some (n, bs1) => decStepsN n bs1
  | none => none

theorem decStepsN_enc (l : List TestStep) (rest : List Nat) :
    decStepsN l.length ((l.map encStep).flatten ++ rest) = some (l, rest) := by
  induction l with
  | nil => rfl
  | cons t ts ih =>
    rw [List.map_cons, List.flatten_cons, List.append_assoc]
    show decStepsN (ts.length + 1) (encStep t ++ ((ts.map encStep).flatten ++ rest)) = _
    unfold decStepsN
    rw [decStep_encStep]
    dsimp only
    rw [ih]

theorem decSteps_encSteps (l : List TestStep) :
    decSteps (encSteps l) = some (l, []) := by
  have h : encSteps l = encNat l.length ++ ((l.map encStep).flatten ++ []) := by
    rw [encSteps, List.append_nil]
  rw [h]
  unfold decSteps
  rw [decNat_encNat]
  dsimp only
  exact decStepsN_enc l []

theorem encNat_bytes (n : Nat) : ∀ b ∈ encNat n, b < 256 := by
  intro b hb
  rw [encNat] at hb
  rcases List.mem_append.mp hb with h | h
  · have := Nat.digits_lt_base (by norm_num) h
    omega
  · simp only [List.mem_singleton] at h
    omega

theorem encChar_bytes (c : Char) : ∀ b ∈ encChar c, b < 256 := by
  intro b hb
  have hc := char_toNat_lt c
  simp only [encChar, List.mem_cons, List.not_mem_nil, or_false] at hb
  rcases hb with rfl | rfl | rfl <;> omega

theorem encStr_bytes (s : Str) : ∀ b ∈ encStr s, b < 256 := by
  intro b hb
  rw [encStr] at hb
  rcases List.mem_append.mp hb with h | h
  · exact encNat_bytes s.length b h
  · rcases List.mem_flatten.mp h with ⟨l, hl, hbl⟩
    rcases List.mem_map.mp hl with ⟨c, -, rfl⟩
    exact encChar_bytes c b hbl

theorem encBool_bytes (x : Bool) : ∀ b ∈ encBool x, b < 256 := by
  intro b hb
  simp only [encBool, List.mem_singleton] at hb
  cases x <;> simp_all

theorem encStep_bytes (t : TestStep) : ∀ b ∈ encStep t, b < 256 := by
  intro b hb
  rw [encStep] at hb
  rcases List.mem_append.mp hb with h | h
  · rcases List.mem_append.mp h with h | h
    · rcases List.mem_append.mp h with h | h
      · rcases List.mem_append.mp h with h | h
        · exact encBool_bytes _ b h
        · exact encBool_bytes _ b h
      · exact encStr_bytes _ b h
    · exact encStr_bytes _ b h
  · exact encStr_bytes _ b h

theorem encSteps_bytes (l : List TestStep) : ∀ b ∈ encSteps l, b < 256 := by
  intro b hb
  rw [encSteps] at hb
  rcases List.mem_append.mp hb with h | h
  · exact encNat_bytes l.length b h
  · rcases List.mem_flatten.mp h with ⟨x, hx, hbx⟩
    rcases List.mem_map.mp hx with ⟨t, -, rfl⟩
    exact encStep_bytes t b hbx

/-- Modelled from the spec: `serde_json::to_string` (src/app.rs 156-160),
`String::from_utf8` and `serde_json::from_str` (src/app.rs 162-180) are
external black-box libraries; spec §6 documents their contract as a byte
serialization of the ordered step list that the paired decoder inverts. A
`JsonCodec` is any such codec: `ser` produces the payload bytes (all < 256)
and `de` models UTF-8 decoding plus JSON parsing, with `de ∘ ser = ok`. -/
structure JsonCodec where
  ser : List TestStep → List Nat
  de : List Nat → Except String (List TestStep)
  de_ser : ∀ items, de (ser items) = .ok items
  ser_bytes : ∀ items, ∀ b ∈ ser items, b < 256

/-- A concrete `JsonCodec` (used by the witnesses): the length-prefixed byte
serialization defined above. -/
def byteCodec : JsonCodec where
  ser := encSteps
  de bs :=
    match decSteps bs with
    | some (l, []) => .ok l
    | _ => .error "Failed to convert json to items data"
  de_ser := by
    intro items
    dsimp only
    rw [decSteps_encSteps]
  ser_bytes := fun items => encSteps_bytes items

/-- `MDEMBEDDING` (src/app.rs 32). -/
def MDEMBEDDING : Str := "MDEMBEDDING".data

/-- `format!("{}:", MDEMBEDDING)`, the marker searched by
`App::parse_clipboard_context` (src/app.rs 397). -/
def markerStr : Str := MDEMBEDDING ++ [':']

/-- `App::build_td` (src/app.rs 182-187). -/
def buildTd (cls val : Str) : Str :=
  "<td class=\"".data ++ cls ++ "\" style=\"border: 1px solid black;\">".data
    ++ val ++ "</td>".data

/-- `App::parse_td` (src/app.rs 189-194): the pulldown-cmark
markdown-to-HTML conversion is an external black box, passed in as
`mdToHtml`. -/
def parseTd (mdToHtml : Str → Str) (cls : Str) (s : Str) : Str :=
  buildTd cls (mdToHtml s)

/-- One `<tr>` of the loop in `App::gen_html` (src/app.rs 200-214). -/
def genRow (mdToHtml : Str → Str) (i : Nat) (item : TestStep) : Str :=
  "<tr>".data
    ++ buildTd "step-td".data ((toString (i + 1)).data ++ ['.'])
    ++ buildTd "pass-td".data []
    ++ parseTd mdToHtml "action-td".data (trimStr item.instructions)
    ++ parseTd mdToHtml "expected-result-td".data (trimStr item.expected_results)
    ++ buildTd "comments-td".data []
    ++ parseTd mdToHtml "ac-td".data (trimStr item.ac)
    ++ "</tr>".data

/-- The concatenated table rows of `App::gen_html` (src/app.rs 196-214). -/
def genTable (mdToHtml : Str → Str) (items : List TestStep) : Str :=
  (items.enum.map fun p => genRow mdToHtml p.1 p.2).flatten

/-- Modelled from the spec: `src/template.html`, pulled into
`App::gen_html` (src/app.rs 217) as a compile-time string, is missing from
the source snapshot. Per spec §4.3/§6 the fixed template wraps the rendered
table and then embeds, verbatim, the marker token immediately followed by
`:`, the base64 payload and a double quote; CSS and boilerplate are out of
scope. These fragments model that wrapper. -/
def templatePre : Str := "<html><body><table>".data

/-- Modelled from the spec: the template text between the table and the
embedded payload. -/
def templateMid : Str := "</table><p hidden>".data

/-- Modelled from the spec: the template text after the payload's closing
double quote. -/
def templatePost : Str := "</p></body></html>".data

/-- `App::gen_html` (src/app.rs 196-223) with `App::serialize_items`
(src/app.rs 156-160): the rendered table followed by
`MDEMBEDDING:<base64(json(items))>"` inside the fixed template. -/
def genHtml (J : JsonCodec) (mdToHtml : Str → Str) (items : List TestStep) : Str :=
  templatePre ++ genTable mdToHtml items ++ templateMid
    ++ markerStr ++ base64Encode (J.ser items) ++ '"' :: templatePost

def strToString (s : Str) : String := String.mk s

/-- `App::deserialize_items` (src/app.rs 162-180): base64-decode the payload,
then decode the bytes via the codec (UTF-8 + JSON), and replace `items` only
when every stage succeeds. -/
def deserializeItems (J : JsonCodec) (s : AppState) (serializedItems : Str) :
    AppState × Except String Unit :=
  match base64Decode serializedItems with
  | .error _ =>
    (s, .error ("Failed to deserialize base64 items, found: "
      ++ strToString serializedItems))
  | .ok bytes =>
    match J.de bytes with
    | .error m => (s, .error m)
    | .ok items => ({ s with items := items }, .ok ())

/-- `App::parse_clipboard_context` (src/app.rs 396-410). -/
def parseClipboardContext (J : JsonCodec) (s : AppState) (context : Str) :
    AppState × Except String Unit :=
  match strFind markerStr context with
  | none => (s, .error "Could not find MDEMBEDDING marker")
  | some idx =>
    match strFind ['"'] (context.drop (idx + markerStr.length)) with
    | none => (s, .error "Could not find ending quote for MDEMBEDDING")
    | some idx2 =>
      deserializeItems J s ((context.drop (idx + markerStr.length)).take idx2)

theorem not_occursIn_single (c : Char) (s : Str) (h : ∀ x ∈ s, x ≠ c) :
    ¬ occursIn [c] s := by
  rintro ⟨i, a, b, heq, -⟩
  exact h c (by rw [heq]; simp) rfl

/-- C8: import fails with the marker error exactly when `MDEMBEDDING:` is
absent from the text; with the terminator error exactly when the marker is
present but no double quote follows it; otherwise the quoted payload goes to
the decoding stage, which fails when base64 decoding fails or when the codec
(UTF-8/JSON) decoding fails; and on every one of these errors the returned
state — document items, selection, register and template store — is the input
state, unchanged. -/
theorem c8_import_errors (J : JsonCodec) (s : AppState) (context : Str) :
    (strFind markerStr context = none →
      parseClipboardContext J s context
        = (s, .error "Could not find MDEMBEDDING marker"))
    ∧ (∀ idx, strFind markerStr context = some idx →
        strFind ['"'] (context.drop (idx + markerStr.length)) = none →
        parseClipboardContext J s context
          = (s, .error "Could not find ending quote for MDEMBEDDING"))
    ∧ (∀ idx idx2, strFind markerStr context = some idx →
        strFind ['"'] (context.drop (idx + markerStr.length)) = some idx2 →
        parseClipboardContext J s context
          = deserializeItems J s ((context.drop (idx + markerStr.length)).take idx2))
    ∧ (∀ payload m, base64Decode payload = .error m →
        deserializeItems J s payload
          = (s, .error ("Failed to deserialize base64 items, found: "
              ++ strToString payload)))
    ∧ (∀ payload bytes m, base64Decode payload = .ok bytes → J.de bytes = .error m →
        deserializeItems J s payload = (s, .error m))
    ∧ (∀ payload bytes items, base64Decode payload = .ok bytes →
        J.de bytes = .ok items →
        deserializeItems J s payload = ({ s with items := items }, .ok ()))
    ∧ (∀ e, (parseClipboardContext J s context).2 = .error e →
        (parseClipboardContext J s context).1 = s) := by
  refine ⟨?_, ?_, ?_, ?_, ?_, ?_, ?_⟩
  · intro h
    unfold parseClipboardContext
    rw [h]
  · intro idx h hq
    unfold parseClipboardContext
    rw [h]
    dsimp only
    rw [hq]
  · intro idx idx2 h hq
    unfold parseClipboardContext
    rw [h]
    dsimp only
    rw [hq]
  · intro payload m h
    unfold deserializeItems
    rw [h]
  · intro payload bytes m h hd
    unfold deserializeItems
    rw [h]
    dsimp only
    rw [hd]
  · intro payload bytes items h hd
    unfold deserializeItems
    rw [h]
    dsimp only
    rw [hd]
  · intro e
    unfold parseClipboardContext
    rcases h : strFind markerStr context with - | idx
    · intro _; rfl
    · dsimp only
      rcases hq : strFind ['"'] (context.drop (idx + markerStr.length)) with - | idx2
      · intro _; rfl
      · dsimp only
        unfold deserializeItems
        rcases hb : base64Decode ((context.drop (idx + markerStr.length)).take idx2)
          with e1 | bytes
        · intro _; rfl
        · dsimp only
          rcases hd : J.de bytes with e2 | items
          · intro _; rfl
          · dsimp only
            intro hc
            simp at hc

/-- C8 (witness): the import-error theorem at concrete inputs — text without
the marker, and text with the marker but no closing quote. -/
theorem c8_witness :
    parseClipboardContext byteCodec (appNew []) "plain text".data
      = (appNew [], .error "Could not find MDEMBEDDING marker")
    ∧ parseClipboardContext byteCodec (appNew []) "xxMDEMBEDDING:abc".data
      = (appNew [], .error "Could not find ending quote for MDEMBEDDING") := by
  constructor
  · exact (c8_import_errors byteCodec (appNew []) "plain text".data).1 (by decide)
  · exact (c8_import_errors byteCodec (appNew []) "xxMDEMBEDDING:abc".data).2.1 2
      (by decide) (by decide)

theorem markerStr_borderFree : borderFree markerStr := by decide

theorem no_marker_prefix (f : Str → Str) (items : List TestStep)
    (htable : ¬ occursIn markerStr (genTable f items)) :
    ¬ occursIn markerStr (templatePre ++ genTable f items ++ templateMid) := by
  have h1 : ¬ occursIn markerStr "<html><body><table".data := by decide
  have h2 : ¬ occursIn markerStr "/table><p hidden>".data := by decide
  have hmid : ¬ occursIn markerStr
      (genTable f items ++ '<' :: "/table><p hidden>".data) :=
    not_occursIn_append_cons markerStr (genTable f items) "/table><p hidden>".data '<'
      htable h2 (by decide)
  have hall := not_occursIn_append_cons markerStr "<html><body><table".data
    (genTable f items ++ '<' :: "/table><p hidden>".data) '>' h1 hmid (by decide)
  have e : templatePre ++ genTable f items ++ templateMid
      = "<html><body><table".data
        ++ '>' :: (genTable f items ++ '<' :: "/table><p hidden>".data) := by
    simp [templatePre, templateMid, List.append_assoc]
  rw [e]
  exact hall

/-- C1 (amended): for every document whose rendered table does not contain
the marker string `MDEMBEDDING:`, importing the exported html succeeds and
returns the state with the identical ordered step list — the state is in fact
unchanged. The statement quantifies over every codec satisfying the
serde-contract and every markdown-to-HTML converter. -/
theorem c1_clipboard_round_trip (J : JsonCodec) (f : Str → Str) (s : AppState)
    (htable : ¬ occursIn markerStr (genTable f s.items)) :
    parseClipboardContext J s (genHtml J f s.items) = (s, .ok ()) := by
  have hP := no_marker_prefix f s.items htable
  have e1 : genHtml J f s.items
      = (templatePre ++ genTable f s.items ++ templateMid) ++ markerStr
        ++ (base64Encode (J.ser s.items) ++ '"' :: templatePost) := by
    rw [genHtml]
    simp [List.append_assoc]
  have hfind : strFind markerStr (genHtml J f s.items)
      = some (templatePre ++ genTable f s.items ++ templateMid).length := by
    rw [e1]
    exact strFind_planted markerStr _ _ hP markerStr_borderFree
  unfold parseClipboardContext
  rw [hfind]
  dsimp only
  have hdrop : (genHtml J f s.items).drop
      ((templatePre ++ genTable f s.items ++ templateMid).length + markerStr.length)
      = base64Encode (J.ser s.items) ++ '"' :: templatePost := by
    have e2 : genHtml J f s.items
        = ((templatePre ++ genTable f s.items ++ templateMid) ++ markerStr)
          ++ (base64Encode (J.ser s.items) ++ '"' :: templatePost) := by
      rw [e1, List.append_assoc]
    rw [e2]
    exact List.drop_left' (by simp only [List.length_append]; try omega)
  rw [hdrop]
  have hq : strFind ['"'] (base64Encode (J.ser s.items) ++ '"' :: templatePost)
      = some (base64Encode (J.ser s.items)).length := by
    have hnq : ¬ occursIn ['"'] (base64Encode (J.ser s.items)) :=
      not_occursIn_single '"' _
        (base64Encode_no_quote (J.ser s.items) (J.ser_bytes s.items))
    have hp := strFind_planted ['"'] (base64Encode (J.ser s.items)) templatePost hnq
      (by decide)
    simpa using hp
  rw [hq]
  dsimp only
  have htake : (base64Encode (J.ser s.items) ++ '"' :: templatePost).take
      (base64Encode (J.ser s.items)).length = base64Encode (J.ser s.items) :=
    List.take_left' rfl
  rw [htake]
  unfold deserializeItems
  rw [base64_roundtrip (J.ser s.items) (J.ser_bytes s.items)]
  dsimp only
  rw [J.de_ser]

/-- C1 (witness): the amended round trip at the empty document, with the
concrete byte codec and the identity converter. -/
theorem c1_witness :
    parseClipboardContext byteCodec (appNew [])
        (genHtml byteCodec (fun t => t) (appNew []).items)
      = (appNew [], .ok ()) :=
  c1_clipboard_round_trip byteCodec (fun t => t) (appNew []) (by decide)

/-- The step whose instructions contain the embedding marker itself. -/
def c1CexStep : TestStep := ⟨false, false, "MDEMBEDDING:".data, [], []⟩

/-- The document holding the single marker-carrying step. -/
def c1CexState : AppState :=
  { items := [c1CexStep], selected := some 0, internalClipboard := none,
    templates := [] }

/-- A minimal model of the markdown-to-HTML converter on plain paragraph
text: pulldown-cmark renders `<p>…</p>\n`, passing the marker characters
through unchanged (none of them is markdown syntax). -/
def pWrap (s : Str) : Str := "<p>".data ++ s ++ "</p>\n".data

set_option maxRecDepth 40000 in
/-- C1 (counterexample): for the one-step document whose instructions text is
`MDEMBEDDING:`, the exported html contains the marker inside the action cell,
before the real embedding. Import finds that first occurrence, takes the text
up to the next double quote — html of the following cell — as the payload,
and fails to base64-decode it: `import(export(d))` is an error, not a
Document with d's content. -/
theorem c1_counterexample :
    (parseClipboardContext byteCodec c1CexState
        (genHtml byteCodec pWrap c1CexState.items)).2
      = .error "Failed to deserialize base64 items, found: </p>\n</td><td class="
    ∧ (parseClipboardContext byteCodec c1CexState
        (genHtml byteCodec pWrap c1CexState.items)).2 ≠ Except.ok () := by
  have h : (parseClipboardContext byteCodec c1CexState
      (genHtml byteCodec pWrap c1CexState.items)).2
      = .error "Failed to deserialize base64 items, found: </p>\n</td><td class=" := rfl
  refine ⟨h, ?_⟩
  rw [h]
  intro hc
  cases hc
